import Mathlib

/-!
# Mes (M2 rewrite): collector, numeric primitives and descriptor input

A shallow embedding of `mes_gc.c`, `mes_math.c` and of the descriptor input,
the port constructors, `execl_` and `ntoab` of `mes_posix.c`.

* A cell (`struct scm`) is a record of a tag and two machine words.  The
  accessors `car`/`rac`/`length`/`macro`/... all name the first word and
  `cdr`/`rdc`/`value`/`vector`/... all name the second word, as in the
  unions of `mes.h`.
* Cell indices (`SCM`) and machine words are integers.  Results of `long`
  arithmetic are reduced to `w` bits two's complement by `wrap`; the width
  `w` of a `long` is a parameter.
* `error (key, x)` does not return to the function that called it (it
  escapes to the handler); a function that may call it returns `Except` or
  `Run`.
* Argument lists of the n-ary primitives are proper lists; such a list is
  represented by the list of the indices found in its successive `CAR`s.
* The two semispaces of the collector are two maps from indices to cells.
  The `while` loop of `gc_loop` runs on a budget of passes (`fuel`); a run
  that uses it up ends in `Run.timeout`.
* The descriptor input works on the array `__ungetc_buf` and on the bytes
  that the host has yet to deliver on each descriptor; a call that may end the
  process with `exit` returns an `Outcome`.  What the host's `open` returns is
  a parameter.
* The loops of `modulo`, `execl_` and `ntoab` run on a budget of passes and
  give `none` when it is used up.  `execl_` walks its argument list in the
  heap and yields the assignments it makes to `c_argv`; `ntoab` yields
  `itoa_buf`, the indices it has assigned to and the index of the pointer it
  returns.
-/

namespace Mes

/-! ## Definitions -/

/-- Modelled from the spec: `mes_constants.h` is not among the sources; the
tags are the closed enumeration of the data model. -/
inductive CellType where
  | TCHAR | TBYTES | TCLOSURE | TCONTINUATION | TFUNCTION | TKEYWORD
  | TMACRO | TNUMBER | TPAIR | TPORT | TREF | TSPECIAL | TSTRING | TSTRUCT
  | TSYMBOL | TVALUES | TVARIABLE | TVECTOR | TBROKEN_HEART
  deriving DecidableEq, Repr

open CellType

/-- The cell record `struct scm` of `mes.h`. -/
structure scm where
  type : CellType
  car : Int
  cdr : Int
  deriving DecidableEq, Repr

/-- Modelled from the spec: the error keys are symbols pre-seeded by
`mes_constants.h`, which is not among the sources. -/
inductive ErrorKey where
  | cell_symbol_not_a_number
  | cell_symbol_system_error
  | cell_symbol_not_a_pair
  deriving DecidableEq, Repr

/-- The second argument of `error`: a cell index, or the symbol made by
`cstring_to_symbol` from a C string. -/
inductive Irritant where
  | cell (x : Int)
  | symbol (name : String)
  deriving DecidableEq, Repr

/-- The ways a primitive can fail to return: a call of `error (key, x)`, or a
machine division or remainder for which C defines no result (a divisor 0, or
the least `long` divided by -1). -/
inductive Signal where
  | error (key : ErrorKey) (x : Irritant)
  | undefined_division
  deriving DecidableEq, Repr

/-- Modelled from the spec: `mes_constants.h` is not among the sources.  The
pre-seeded singletons occupy fixed low indices; nil is index 1 (the scan loop
of the collector tests `scan == 1 // null`), followed by #f and #t. -/
def cell_nil : Int := 1

/-- Modelled from the spec: the singleton #f (`mes_constants.h` is absent). -/
def cell_f : Int := 2

/-- Modelled from the spec: the singleton #t (`mes_constants.h` is absent). -/
def cell_t : Int := 3

/-- A `long` result reduced to `w` bits, two's complement. -/
def wrap (w : Nat) (x : Int) : Int := Int.bmod x (2 ^ w)

/-- The macro `MAKE_NUMBER (n)`, that is `make_cell__ (TNUMBER, 0, n)`; the
fresh cell is represented by its contents. -/
def MAKE_NUMBER (n : Int) : scm := { type := TNUMBER, car := 0, cdr := n }

/-- The macro `VALUE (x)` of `mes_math.c`: the second word of cell `x`. -/
def VALUE (g_cells : Int → scm) (x : Int) : Int := (g_cells x).cdr

/-- `assert_number`: calls `error (cell_symbol_not_a_number, x)` unless cell
`x` is a number (the name is only printed). -/
def assert_number (g_cells : Int → scm) (_name : String) (x : Int) : Except Signal Unit :=
  if (g_cells x).type ≠ TNUMBER then
    .error (Signal.error ErrorKey.cell_symbol_not_a_number (Irritant.cell x))
  else .ok ()

/-- The `while` loop of `greater_p`, with `n` the previous value. -/
def greater_p_loop (g_cells : Int → scm) : Int → List Int → Except Signal Int
  | _, [] => .ok cell_t
  | n, a :: x => do
    assert_number g_cells "greater_p" a
    if VALUE g_cells a ≥ n then .ok cell_f
    else greater_p_loop g_cells (VALUE g_cells a) x

/-- The primitive `>`. -/
def greater_p (g_cells : Int → scm) : List Int → Except Signal Int
  | [] => .ok cell_t
  | a :: x => do
    assert_number g_cells "greater_p" a
    greater_p_loop g_cells (VALUE g_cells a) x

/-- The `while` loop of `less_p`, with `n` the previous value. -/
def less_p_loop (g_cells : Int → scm) : Int → List Int → Except Signal Int
  | _, [] => .ok cell_t
  | n, a :: x => do
    assert_number g_cells "less_p" a
    if VALUE g_cells a ≤ n then .ok cell_f
    else less_p_loop g_cells (VALUE g_cells a) x

/-- The primitive `<`. -/
def less_p (g_cells : Int → scm) : List Int → Except Signal Int
  | [] => .ok cell_t
  | a :: x => do
    assert_number g_cells "less_p" a
    less_p_loop g_cells (VALUE g_cells a) x

/-- The `while` loop of `is_p`: no `assert_number` in its body. -/
def is_p_loop (g_cells : Int → scm) (n : Int) : List Int → Int
  | [] => cell_t
  | a :: x => if VALUE g_cells a ≠ n then cell_f else is_p_loop g_cells n x

/-- The primitive `=`. -/
def is_p (g_cells : Int → scm) : List Int → Except Signal Int
  | [] => .ok cell_t
  | a :: x => do
    assert_number g_cells "is_p" a
    .ok (is_p_loop g_cells (VALUE g_cells a) x)

/-- The `while` loop of `minus`. -/
def minus_loop (w : Nat) (g_cells : Int → scm) : Int → List Int → Except Signal Int
  | n, [] => .ok n
  | n, a :: x => do
    assert_number g_cells "minus" a
    minus_loop w g_cells (wrap w (n - VALUE g_cells a)) x

/-- Modelled from the spec: `cdr` is declared in `mes_math.c` and defined
elsewhere; the pair accessors assert the type of their argument, so `cdr` of
nil, which is not a pair, signals an error. -/
def cdr_nil : Except Signal scm :=
  .error (Signal.error ErrorKey.cell_symbol_not_a_pair (Irritant.cell cell_nil))

/-- The primitive `-`.  On the empty list the source asserts `CAR (cell_nil)`
and then takes `cdr (cell_nil)`. -/
def minus (w : Nat) (g_cells : Int → scm) : List Int → Except Signal scm
  | [] => do
    assert_number g_cells "minus" (g_cells cell_nil).car
    cdr_nil
  | a :: x => do
    assert_number g_cells "minus" a
    let n := VALUE g_cells a
    let n := if x = [] then wrap w (-n) else n
    let n ← minus_loop w g_cells n x
    .ok (MAKE_NUMBER n)

/-- The `while` loop of `plus`. -/
def plus_loop (w : Nat) (g_cells : Int → scm) : Int → List Int → Except Signal Int
  | n, [] => .ok n
  | n, a :: x => do
    assert_number g_cells "plus" a
    plus_loop w g_cells (wrap w (n + VALUE g_cells a)) x

/-- The primitive `+`. -/
def plus (w : Nat) (g_cells : Int → scm) (x : List Int) : Except Signal scm := do
  let n ← plus_loop w g_cells 0 x
  .ok (MAKE_NUMBER n)

/-- The `while` loop of `divide`: the loop is left once `n` is 0; `n /= v`
truncates toward zero and has no defined result for `v = 0`, nor for the
quotient of the least `long` by -1, which is not a `long`. -/
def divide_loop (w : Nat) (g_cells : Int → scm) : Int → List Int → Except Signal Int
  | n, [] => .ok n
  | n, a :: x => do
    assert_number g_cells "divide" a
    if n = 0 then .ok n
    else if VALUE g_cells a = 0 then .error Signal.undefined_division
    else if n = -(2 ^ (w - 1)) ∧ VALUE g_cells a = -1 then .error Signal.undefined_division
    else divide_loop w g_cells (wrap w (Int.tdiv n (VALUE g_cells a))) x

/-- The primitive `/`. -/
def divide (w : Nat) (g_cells : Int → scm) : List Int → Except Signal scm
  | [] => .ok (MAKE_NUMBER 1)
  | a :: x => do
    assert_number g_cells "divide" a
    let n ← divide_loop w g_cells (VALUE g_cells a) x
    .ok (MAKE_NUMBER n)

/-- The `while` loop of `multiply`. -/
def multiply_loop (w : Nat) (g_cells : Int → scm) : Int → List Int → Except Signal Int
  | n, [] => .ok n
  | n, a :: x => do
    assert_number g_cells "multiply" a
    multiply_loop w g_cells (wrap w (n * VALUE g_cells a)) x

/-- The primitive `*`. -/
def multiply (w : Nat) (g_cells : Int → scm) (x : List Int) : Except Signal scm := do
  let n ← multiply_loop w g_cells 1 x
  .ok (MAKE_NUMBER n)

/-- The `while` loop of `logand` (its `assert_number` prints "multiply"). -/
def logand_loop (g_cells : Int → scm) : Int → List Int → Except Signal Int
  | n, [] => .ok n
  | n, a :: x => do
    assert_number g_cells "multiply" a
    logand_loop g_cells (Int.land n (VALUE g_cells a)) x

/-- The primitive `logand`: the accumulator starts at `long n = 0`. -/
def logand (g_cells : Int → scm) (x : List Int) : Except Signal scm := do
  let n ← logand_loop g_cells 0 x
  .ok (MAKE_NUMBER n)

/-- The `while` loop of `logior`. -/
def logior_loop (g_cells : Int → scm) : Int → List Int → Except Signal Int
  | n, [] => .ok n
  | n, a :: x => do
    assert_number g_cells "logior" a
    logior_loop g_cells (Int.lor n (VALUE g_cells a)) x

/-- The primitive `logior`. -/
def logior (g_cells : Int → scm) (x : List Int) : Except Signal scm := do
  let n ← logior_loop g_cells 0 x
  .ok (MAKE_NUMBER n)

/-- The `while` loop of `logxor`. -/
def logxor_loop (g_cells : Int → scm) : Int → List Int → Except Signal Int
  | n, [] => .ok n
  | n, a :: x => do
    assert_number g_cells "logxor" a
    logxor_loop g_cells (Int.xor n (VALUE g_cells a)) x

/-- The primitive `logxor`. -/
def logxor (g_cells : Int → scm) (x : List Int) : Except Signal scm := do
  let n ← logxor_loop g_cells 0 x
  .ok (MAKE_NUMBER n)

/-! ### The collector (`mes_gc.c`)

The two semispaces are two maps from indices to cells: `g_cells` (the active
space, from-space during a collection) and `g_news` (to-space).
`gc_init_news` places the to-space at `g_cells + g_free`, that is in the
part of the arena beyond the live cells; the two maps stand for these two
disjoint regions.  The helper macros of `gcc_req.h` (`Getstructscm`,
`GetSCM`, `bad2good`, ...) convert between a cell index and the address of the
cell; on indices they are the identity. -/

/-- The globals of `mes.h` that the collector reads or writes. -/
structure Machine where
  g_cells : Int → scm
  g_news : Int → scm
  g_free : Int
  g_symbols : Int
  g_macros : Int
  g_ports : Int
  m0 : Int
  g_stack : Int
  g_stack_array : Int → Int
  STACK_SIZE : Int
  g_symbol_max : Int
  ARENA_SIZE : Int
  MAX_ARENA_SIZE : Int
  JAM_SIZE : Int
  GC_SAFETY : Int

/-- How a run of the collector ends: it returns, or `error (key, x)` is
called, or the step budget of the model is used up. -/
inductive Run (α : Type) where
  | done (a : α)
  | raised (key : ErrorKey) (x : Irritant)
  | timeout

/-- The state a run returned, if it returned (else the given default). -/
def Run.result {α : Type} (d : α) : Run α → α
  | .done a => a
  | _ => d

/-- `gc_up_arena`: doubles the three sizes, or caps the arena.  `realloc` is
taken to succeed and to keep the cells and the stack. -/
def gc_up_arena (s : Machine) : Machine :=
  if s.ARENA_SIZE >>> 1 < s.MAX_ARENA_SIZE >>> 2 then
    { s with ARENA_SIZE := s.ARENA_SIZE * 2, JAM_SIZE := s.JAM_SIZE * 2,
             GC_SAFETY := s.GC_SAFETY * 2 }
  else
    { s with ARENA_SIZE := s.MAX_ARENA_SIZE - s.JAM_SIZE }

/-- `gc_flip`: enlarges `JAM_SIZE` when exceeded, then `memcpy` moves the
`g_free + 2` cells of to-space from index -1 on down into `g_cells`. -/
def gc_flip (s : Machine) : Machine :=
  { s with
    JAM_SIZE := if s.g_free > s.JAM_SIZE then s.g_free + Int.tdiv s.g_free 2 else s.JAM_SIZE
    g_cells := fun i => if -1 ≤ i ∧ i < -1 + (s.g_free + 2) then s.g_news i else s.g_cells i }

/-- `gc_copy`, returning the new state and the returned index.  A forwarded
cell yields its forwarding index.  Otherwise the cell is copied to
`new = g_free++`; a vector or struct gets `vector = g_free` and its `length`
elements copied behind the header; for bytes the payload `memcpy` is rendered
at cell granularity (the `bytes_cells (length) - 1` cells behind the header
are transferred) and `g_free` advances by `bytes_cells (length) - 1`; last the
old cell is stamped `TBROKEN_HEART` with `car = new`.  `bytes_cells` is not
among the sources and is a parameter. -/
def gc_copy (bytes_cells : Int → Int) (s : Machine) (old : Int) : Machine × Int :=
  let o := s.g_cells old
  if o.type = TBROKEN_HEART then (s, o.car)
  else
    let new := s.g_free
    let g_free := s.g_free + 1
    let copied : Machine :=
      if o.type = TSTRUCT ∨ o.type = TVECTOR then
        { s with
          g_news := fun j =>
            if j = new then { o with cdr := g_free }
            else if g_free ≤ j ∧ j < g_free + o.car then s.g_cells (o.cdr + (j - g_free))
            else s.g_news j
          g_free := g_free + max 0 o.car }
      else if o.type = TBYTES then
        { s with
          g_news := fun j =>
            if j = new then o
            else if new < j ∧ j < new + bytes_cells o.car then s.g_cells (old + (j - new))
            else s.g_news j
          g_free := g_free + (bytes_cells o.car - 1) }
      else
        { s with
          g_news := fun j => if j = new then o else s.g_news j
          g_free := g_free }
    ({ copied with
        g_cells := fun x =>
          if x = old then { type := TBROKEN_HEART, car := new, cdr := (copied.g_cells old).cdr }
          else copied.g_cells x },
      new)

/-- `gc_relocate_car`: `g_news[new].rac = car`. -/
def gc_relocate_car (s : Machine) (new car : Int) : Machine :=
  { s with g_news := fun j => if j = new then { s.g_news new with car := car } else s.g_news j }

/-- `gc_relocate_cdr`: `g_news[new].rdc = cdr`. -/
def gc_relocate_cdr (s : Machine) (new cdr : Int) : Machine :=
  { s with g_news := fun j => if j = new then { s.g_news new with cdr := cdr } else s.g_news j }

/-- The macro `NTYPE (x)`. -/
def NTYPE (s : Machine) (x : Int) : CellType := (s.g_news x).type

/-- The first `if` in the loop of `gc_loop`: a macro, pair, ref or variable,
and the cell at index 1 (null), has its car copied and relocated. -/
def gc_scan_car (bytes_cells : Int → Int) (s : Machine) (scan : Int) : Machine :=
  if NTYPE s scan = TMACRO ∨ NTYPE s scan = TPAIR ∨ NTYPE s scan = TREF ∨ scan = 1
      ∨ NTYPE s scan = TVARIABLE then
    gc_relocate_car (gc_copy bytes_cells s (s.g_news scan).car).1 scan
      (gc_copy bytes_cells s (s.g_news scan).car).2
  else s

/-- The second `if` in the loop of `gc_loop`: the non-zero cdr of the listed
types, and of the cell at index 1, is copied and relocated. -/
def gc_scan_cdr (bytes_cells : Int → Int) (s : Machine) (scan : Int) : Machine :=
  if (NTYPE s scan = TCLOSURE ∨ NTYPE s scan = TCONTINUATION ∨ NTYPE s scan = TKEYWORD
      ∨ NTYPE s scan = TMACRO ∨ NTYPE s scan = TPAIR ∨ NTYPE s scan = TPORT
      ∨ NTYPE s scan = TSPECIAL ∨ NTYPE s scan = TSTRING ∨ NTYPE s scan = TSYMBOL
      ∨ scan = 1 ∨ NTYPE s scan = TVALUES) ∧ (s.g_news scan).cdr ≠ 0 then
    gc_relocate_cdr (gc_copy bytes_cells s (s.g_news scan).cdr).1 scan
      (gc_copy bytes_cells s (s.g_news scan).cdr).2
  else s

/-- The end of a pass of the loop of `gc_loop`: for a bytes header
`scan += bytes_cells (NLENGTH (scan)) - 1`, then `scan++`. -/
def scan_next (bytes_cells : Int → Int) (news : Int → scm) (scan : Int) : Int :=
  (if (news scan).type = TBYTES then scan + (bytes_cells (news scan).car - 1) else scan) + 1

/-- One pass through the body of the `while` loop of `gc_loop`, after the
broken-heart test: relocate the car, relocate the non-zero cdr, step over a
bytes payload, `scan++`. -/
def gc_loop_body (bytes_cells : Int → Int) (s : Machine) (scan : Int) : Machine × Int :=
  (gc_scan_cdr bytes_cells (gc_scan_car bytes_cells s scan) scan,
    scan_next bytes_cells (gc_scan_cdr bytes_cells (gc_scan_car bytes_cells s scan) scan).g_news
      scan)

/-- The `while (scan < g_free)` loop of `gc_loop`, run for at most `fuel`
passes; a broken heart under the scan pointer raises the "gc" system error. -/
def gc_loop_scan (bytes_cells : Int → Int) : Nat → Machine → Int → Run Machine
  | 0, s, scan => if scan < s.g_free then .timeout else .done s
  | fuel + 1, s, scan =>
    if scan < s.g_free then
      if NTYPE s scan = TBROKEN_HEART then
        .raised ErrorKey.cell_symbol_system_error (Irritant.symbol "gc")
      else
        gc_loop_scan bytes_cells fuel (gc_loop_body bytes_cells s scan).1
          (gc_loop_body bytes_cells s scan).2
    else .done s

/-- `gc_loop`: the scan loop, then `gc_flip`. -/
def gc_loop (bytes_cells : Int → Int) (fuel : Nat) (s : Machine) (scan : Int) : Run Machine :=
  match gc_loop_scan bytes_cells fuel s scan with
  | .done t => .done (gc_flip t)
  | .raised key x => .raised key x
  | .timeout => .timeout

/-- `gc_init_news`: the cell before to-space index 0 becomes the sentinel
vector of length 1000, and cell 0 gets type `TCHAR` and value 'n'. -/
def gc_init_news (s : Machine) : Machine :=
  { s with
    g_news := fun j =>
      if j = -1 then { type := TVECTOR, car := 1000, cdr := 0 }
      else if j = 0 then { type := TCHAR, car := (s.g_news 0).car, cdr := 110 }
      else s.g_news j }

/-- The loop `for (i = g_free; i < g_symbol_max; i++) gc_copy (i)` of `gc_`,
with `k` passes left. -/
def gc_symbols_loop (bytes_cells : Int → Int) : Nat → Int → Machine → Machine
  | 0, _, s => s
  | k + 1, i, s => gc_symbols_loop bytes_cells k (i + 1) (gc_copy bytes_cells s i).1

/-- The assignment `g_stack_array[i] = x`. -/
def set_stack_slot (s : Machine) (i x : Int) : Machine :=
  { s with g_stack_array := fun j => if j = i then x else s.g_stack_array j }

/-- The loop `for (i = g_stack; i < STACK_SIZE; i++)` of `gc_` over the live
stack slots, with `k` passes left. -/
def gc_stack_loop (bytes_cells : Int → Int) : Nat → Int → Machine → Machine
  | 0, _, s => s
  | k + 1, i, s =>
    let r := gc_copy bytes_cells s (s.g_stack_array i)
    gc_stack_loop bytes_cells k (i + 1) (set_stack_slot r.1 i r.2)

/-- The start of `gc_`: `gc_init_news`, then `g_free = 1`. -/
def gc_start (s : Machine) : Machine := { gc_init_news s with g_free := 1 }

/-- The arena growth of `gc_`: `if (ARENA_SIZE < MAX_ARENA_SIZE && g_news > 0)
gc_up_arena ()`; the pointer test `g_news > 0` holds after `gc_init_news`. -/
def gc_grow (s : Machine) : Machine :=
  if s.ARENA_SIZE < s.MAX_ARENA_SIZE then gc_up_arena s else s

/-- The statement `g_symbols = GetSCM (gc_copy (g_symbols))` of `gc_`. -/
def gc_root_symbols (bytes_cells : Int → Int) (s : Machine) : Machine :=
  { (gc_copy bytes_cells s s.g_symbols).1 with g_symbols := (gc_copy bytes_cells s s.g_symbols).2 }

/-- The statement `g_macros = GetSCM (gc_copy (g_macros))` of `gc_`. -/
def gc_root_macros (bytes_cells : Int → Int) (s : Machine) : Machine :=
  { (gc_copy bytes_cells s s.g_macros).1 with g_macros := (gc_copy bytes_cells s s.g_macros).2 }

/-- The statement `g_ports = GetSCM (gc_copy (g_ports))` of `gc_`. -/
def gc_root_ports (bytes_cells : Int → Int) (s : Machine) : Machine :=
  { (gc_copy bytes_cells s s.g_ports).1 with g_ports := (gc_copy bytes_cells s s.g_ports).2 }

/-- The statement `m0 = GetSCM (gc_copy (m0))` of `gc_`. -/
def gc_root_module (bytes_cells : Int → Int) (s : Machine) : Machine :=
  { (gc_copy bytes_cells s s.m0).1 with m0 := (gc_copy bytes_cells s s.m0).2 }

/-- The loop of `gc_` over the singletons, from `i = g_free` up to
`g_symbol_max`. -/
def gc_root_singletons (bytes_cells : Int → Int) (s : Machine) : Machine :=
  gc_symbols_loop bytes_cells (s.g_symbol_max - s.g_free).toNat s.g_free s

/-- The loop of `gc_` over the live stack slots, from `i = g_stack` up to
`STACK_SIZE`. -/
def gc_root_stack (bytes_cells : Int → Int) (s : Machine) : Machine :=
  gc_stack_loop bytes_cells (s.STACK_SIZE - s.g_stack).toNat s.g_stack s

/-- The part of `gc_` before its call `gc_loop (1)`: `gc_init_news`,
`g_free = 1`, the arena growth, then the copies of the singletons, of
`g_symbols`, `g_macros`, `g_ports`, `m0` and of the live stack slots. -/
def gc_roots (bytes_cells : Int → Int) (s : Machine) : Machine :=
  gc_root_stack bytes_cells
    (gc_root_module bytes_cells
      (gc_root_ports bytes_cells
        (gc_root_macros bytes_cells
          (gc_root_symbols bytes_cells
            (gc_root_singletons bytes_cells (gc_grow (gc_start s)))))))

/-- `gc_`: the root copies, then `gc_loop (1)`. -/
def gc_ (bytes_cells : Int → Int) (fuel : Nat) (s : Machine) : Run Machine :=
  gc_loop bytes_cells fuel (gc_roots bytes_cells s) 1

/-- The globals outside the heap agree. -/
def SameGlobals (s t : Machine) : Prop :=
  t.g_symbols = s.g_symbols ∧ t.g_macros = s.g_macros ∧ t.g_ports = s.g_ports ∧ t.m0 = s.m0 ∧
  t.g_stack = s.g_stack ∧ t.g_stack_array = s.g_stack_array ∧ t.STACK_SIZE = s.STACK_SIZE ∧
  t.g_symbol_max = s.g_symbol_max ∧ t.ARENA_SIZE = s.ARENA_SIZE ∧
  t.MAX_ARENA_SIZE = s.MAX_ARENA_SIZE ∧ t.JAM_SIZE = s.JAM_SIZE ∧ t.GC_SAFETY = s.GC_SAFETY

/-- Cell `x` of from-space is forwarded to index `r`. -/
def ForwardedTo (s : Machine) (x r : Int) : Prop :=
  (s.g_cells x).type = TBROKEN_HEART ∧ (s.g_cells x).car = r

/-- Index `i` holds a cell header of the space `news`: it is one of the
positions the scan pointer of `gc_loop` takes on its walk from index 1, which
steps over the payload behind each bytes header. -/
inductive IsHeader (bytes_cells : Int → Int) (news : Int → scm) : Int → Prop
  | first : IsHeader bytes_cells news 1
  | next (j : Int) : IsHeader bytes_cells news j →
      IsHeader bytes_cells news (scan_next bytes_cells news j)

/-- The tags whose car the scan loop relocates. -/
def live_car (t : CellType) : Prop := t = TMACRO ∨ t = TPAIR ∨ t = TREF ∨ t = TVARIABLE

/-- Modelled from the spec: `bytes_cells` is not among the sources; a payload
of `length` bytes takes `1 + ceil (length / sizeof (cell))` cells, here with
cells of 24 bytes (`length` is a `size_t`). -/
def bytes_cells_24 (length : Int) : Int := 1 + ((length.toNat + 23) / 24 : Nat)

/-- The cells 0 to 13 of a from-space for examples.  Cells 1 to 3 are the
singletons nil, #f, #t; cell 4 is the pair (42 . (sym)), cell 5 the number 42,
cell 6 the pair (sym . ()), cell 7 a symbol whose name is the bytes object at
cell 8 (length 30, payload in cells 9 and 10), cell 11 a vector of two
elements (the reference to cell 4 at cell 12 and the character at cell 13). -/
def example_heap : List scm :=
  [ { type := TCHAR, car := 0, cdr := 110 },
    { type := TSPECIAL, car := 0, cdr := 0 },
    { type := TSPECIAL, car := 0, cdr := 0 },
    { type := TSPECIAL, car := 0, cdr := 0 },
    { type := TPAIR, car := 5, cdr := 6 },
    { type := TNUMBER, car := 0, cdr := 42 },
    { type := TPAIR, car := 7, cdr := 0 },
    { type := TSYMBOL, car := 30, cdr := 8 },
    { type := TBYTES, car := 30, cdr := 7303014 },
    { type := TCHAR, car := 0, cdr := 0 },
    { type := TCHAR, car := 0, cdr := 0 },
    { type := TVECTOR, car := 2, cdr := 12 },
    { type := TREF, car := 4, cdr := 0 },
    { type := TCHAR, car := 0, cdr := 97 } ]

/-- A from-space for examples: `example_heap`, and a character cell at every
other index. -/
def example_cells (i : Int) : scm :=
  if 0 ≤ i then example_heap.getD i.toNat { type := TCHAR, car := 0, cdr := 0 }
  else { type := TCHAR, car := 0, cdr := 0 }

/-- A machine state for examples: the heap `example_cells` with 14 cells in
use, roots `g_symbols = 6`, `g_macros = 1`, `g_ports = 1`, `m0 = 4` and one
live stack slot holding the vector 11. -/
def example_machine : Machine :=
  { g_cells := example_cells
    g_news := fun _ => { type := TCHAR, car := 0, cdr := 0 }
    g_free := 14
    g_symbols := 6
    g_macros := 1
    g_ports := 1
    m0 := 4
    g_stack := 9
    g_stack_array := fun i => if i = 9 then 11 else 0
    STACK_SIZE := 10
    g_symbol_max := 4
    ARENA_SIZE := 100
    MAX_ARENA_SIZE := 100
    JAM_SIZE := 20
    GC_SAFETY := 10 }

/-- The state in which the scan loop of `gc_` on `example_machine` ends. -/
def example_scanned : Machine :=
  Run.result example_machine
    (gc_loop_scan bytes_cells_24 20 (gc_roots bytes_cells_24 example_machine) 1)

/-- A heap for examples: cell `i` is the number `i - 10`, except that the
cells below index 10 are symbols. -/
def number_heap : Int → scm := fun i =>
  if i < 10 then { type := TSYMBOL, car := 0, cdr := 0 }
  else { type := TNUMBER, car := 0, cdr := i - 10 }

/-- The state `gc_` returns on `example_machine`. -/
def example_collected : Machine := gc_flip example_scanned

/-- The state and the scan pointer after `k` passes through the body of the
loop of `gc_loop`, the loop tests left aside. -/
def gc_loop_passes (bytes_cells : Int → Int) : Nat → Machine → Int → Machine × Int
  | 0, s, scan => (s, scan)
  | k + 1, s, scan =>
    gc_loop_passes bytes_cells k (gc_loop_body bytes_cells s scan).1
      (gc_loop_body bytes_cells s scan).2

/-- The four arena sizes agree. -/
def SameSizes (s t : Machine) : Prop :=
  t.ARENA_SIZE = s.ARENA_SIZE ∧ t.MAX_ARENA_SIZE = s.MAX_ARENA_SIZE ∧
  t.JAM_SIZE = s.JAM_SIZE ∧ t.GC_SAFETY = s.GC_SAFETY

/-- The states reached from `s` by any number of collections that return;
between two collections the program runs and leaves the four sizes alone (no
function outside `mes_gc.c` assigns to them). -/
inductive Collections (bytes_cells : Int → Int) : Machine → Machine → Prop
  | start (s : Machine) : Collections bytes_cells s s
  | collect (s u v t : Machine) (fuel : Nat) : Collections bytes_cells s u → SameSizes u v →
      gc_ bytes_cells fuel v = .done t → Collections bytes_cells s t

/-- The machine `example_machine` with room to grow: `MAX_ARENA_SIZE` is
1000. -/
def example_growing : Machine := { example_machine with MAX_ARENA_SIZE := 1000 }

/-- The state `gc_` returns on `example_growing`. -/
def example_grown : Machine :=
  Run.result example_growing (gc_ bytes_cells_24 20 example_growing)

/-- The machine `example_machine` with a to-space full of broken hearts. -/
def example_broken : Machine :=
  { example_machine with g_news := fun _ => { type := TBROKEN_HEART, car := 0, cdr := 0 } }

/-! ### Descriptor input and ports (`mes_posix.c`) -/

/-- The constant `RLIMIT_NOFILE` of `mes.h`. -/
def RLIMIT_NOFILE : Int := 1024

/-- The state of the descriptor input of `mes_posix.c`: the array
`__ungetc_buf`, the global `__stdin`, and for each descriptor the bytes the
host has yet to deliver on it (end of input once they are used up). -/
structure Posix where
  __ungetc_buf : Int → Int
  __stdin : Int
  input : Int → List (Fin 256)

/-- How a call ends that may end the process: it returns a value in a new
state, or it calls `exit`, or it takes the branch for a string port
(`__stdin < 0`), which works on the heap and is outside this model. -/
inductive Outcome (α : Type) where
  | returned (a : α) (st : Posix)
  | exited (status : Int)
  | string_port

/-- `__ungetc_init`: a buffer whose last entry is 0 was never used; `memset`
then puts -1 into each of its `RLIMIT_NOFILE + 1` entries. -/
def __ungetc_init (st : Posix) : Posix :=
  if st.__ungetc_buf RLIMIT_NOFILE = 0 then
    { st with
      __ungetc_buf := fun j => if 0 ≤ j ∧ j < RLIMIT_NOFILE + 1 then -1 else st.__ungetc_buf j }
  else st

/-- The host call `read (fd, &c, 1)`: the next byte of the descriptor, if
there is one (`r = 1`), else nothing (`r < 1`). -/
def read (st : Posix) (fd : Int) : Option (Fin 256) × Posix :=
  match st.input fd with
  | [] => (none, st)
  | b :: rest => (some b, { st with input := fun j => if j = fd then rest else st.input j })

/-- The conversion `i = c` of the byte in `char c` to `int`: with a signed
`char` a byte from 128 on is negative. -/
def char_to_int (char_signed : Bool) (b : Fin 256) : Int :=
  if char_signed = true ∧ 128 ≤ b.val then (b.val : Int) - 256 else (b.val : Int)

/-- The end of `fdgetc`: `if (i < 0) i += 256; return i;`. -/
def fdgetc_result (i : Int) : Int := if i < 0 then i + 256 else i

/-- `fdgetc`: takes the pending value of the slot, if it holds one
(`i >= 0`), and empties the slot; else reads a byte, and returns -1 when
`read` delivers none. -/
def fdgetc (char_signed : Bool) (st : Posix) (fd : Int) : Int × Posix :=
  if (__ungetc_init st).__ungetc_buf fd ≥ 0 then
    (fdgetc_result ((__ungetc_init st).__ungetc_buf fd),
      { __ungetc_init st with
        __ungetc_buf := fun j => if j = fd then -1 else (__ungetc_init st).__ungetc_buf j })
  else
    match read (__ungetc_init st) fd with
    | (none, st2) => (-1, st2)
    | (some c, st2) => (fdgetc_result (char_to_int char_signed c), st2)

/-- `fdungetc`: -1 is not stored; a slot that is not empty ends the process
with `exit (1)`; else the slot takes `c`. -/
def fdungetc (st : Posix) (c fd : Int) : Outcome Int :=
  if c = -1 then .returned c (__ungetc_init st)
  else if (__ungetc_init st).__ungetc_buf fd ≠ -1 then .exited 1
  else
    .returned c
      { __ungetc_init st with
        __ungetc_buf := fun j => if j = fd then c else (__ungetc_init st).__ungetc_buf j }

/-- Every slot of a descriptor is empty or holds a byte: the states of the
unget buffer when `fdungetc` is only given values that `fdgetc` returned. -/
def SlotsValid (st : Posix) : Prop :=
  ∀ fd, 0 ≤ fd → fd < RLIMIT_NOFILE →
    -1 ≤ (__ungetc_init st).__ungetc_buf fd ∧ (__ungetc_init st).__ungetc_buf fd ≤ 255

/-- A descriptor state for examples: input comes from descriptor 0, whose
slot is empty and which has the bytes 233, 104, 10 to deliver. -/
def example_posix : Posix :=
  { __ungetc_buf := fun _ => -1
    __stdin := 0
    input := fun fd => if fd = 0 then [233, 104, 10] else [] }

/-- Modelled from the spec: `make_cell__` is not among the sources.  The
allocator writes a cell header at `g_free`, returns that index and advances
`g_free` by 1; the collection that may come before an allocation is
`gc_check`, a function of its own in `mes_gc.c`. -/
def make_cell__ (s : Machine) (type : CellType) (car cdr : Int) : Machine × Int :=
  ({ s with
      g_cells := fun i =>
        if i = s.g_free then { type := type, car := car, cdr := cdr } else s.g_cells i
      g_free := s.g_free + 1 },
    s.g_free)

/-- Modelled from the spec: `cons` is not among the sources; it allocates a
pair cell with the given car and cdr. -/
def cons (s : Machine) (x y : Int) : Machine × Int := make_cell__ s TPAIR x y

/-- Cell `p` is an element of the list `l` of the heap `g_cells`. -/
inductive ListElement (g_cells : Int → scm) : Int → Int → Prop
  | head (l : Int) : (g_cells l).type = TPAIR → ListElement g_cells l (g_cells l).car
  | tail (l p : Int) : (g_cells l).type = TPAIR → ListElement g_cells (g_cells l).cdr p →
      ListElement g_cells l p

/-! ### Bytes objects in the scan loop -/

/-- The loop `while (x < 0) x += VALUE (b)` of `modulo`, run for at most
`fuel` passes; `b` is the value of the divisor. -/
def modulo_loop (w : Nat) (b : Int) : Nat → Int → Option Int
  | 0, x => if x < 0 then none else some x
  | fuel + 1, x => if x < 0 then modulo_loop w b fuel (wrap w (x + b)) else some x

/-- The primitive `modulo`: `none` when the loop has not ended within `fuel`
passes.  After the loop `x ? x % VALUE (b) : 0`; the remainder `%` of C
truncates toward zero and has no defined result for a divisor 0. -/
def modulo (w : Nat) (g_cells : Int → scm) (fuel : Nat) (a b : Int) :
    Option (Except Signal scm) :=
  match assert_number g_cells "modulo" a with
  | .error e => some (.error e)
  | .ok _ =>
    match assert_number g_cells "modulo" b with
    | .error e => some (.error e)
    | .ok _ =>
      match modulo_loop w (VALUE g_cells b) fuel (VALUE g_cells a) with
      | none => none
      | some x =>
        if x = 0 then some (.ok (MAKE_NUMBER 0))
        else if VALUE g_cells b = 0 then some (.error Signal.undefined_division)
        else some (.ok (MAKE_NUMBER (Int.tmod x (VALUE g_cells b))))

/-- A heap for examples in which every cell is a number: cell `i` is the
number `i - 100`. -/
def signed_heap : Int → scm := fun i => { type := TNUMBER, car := 0, cdr := i - 100 }

/-- The machine `example_machine` with an arena of 90 cells below its
`MAX_ARENA_SIZE` of 100 (`JAM_SIZE` is 20). -/
def example_capped : Machine := { example_machine with ARENA_SIZE := 90 }

/-- How `execl_` ends: with `error (cell_symbol_system_error, ...)` for too
many arguments, with a failed `assert` (the argument at `arg` is not a
string), or with the call `execv (c_argv[0], c_argv)`, before which it has
made the assignments `c_argv[i] = p` listed in `writes`, in order; `p` is the
cell that holds the bytes of the string, or `none` for the null pointer. -/
inductive Execl where
  | too_many_arguments
  | assert_failed (arg : Int)
  | execv (writes : List (Int × Option Int))

/-- The macro `STRING (x)` of `mes_posix.c`: the second word of cell `x`. -/
def STRING (g_cells : Int → scm) (x : Int) : Int := (g_cells x).cdr

/-- The `while (args != cell_nil)` loop of `execl_`, run for at most `fuel`
passes, with `i` the next index of `c_argv`: the assignments it makes, then
`c_argv[i] = 0`; an argument that is not a string fails the `assert`. -/
def execl_loop (g_cells : Int → scm) :
    Nat → Int → Int → Option (Except Int (List (Int × Option Int)))
  | 0, i, args => if args ≠ cell_nil then none else some (.ok [(i, none)])
  | fuel + 1, i, args =>
    if args ≠ cell_nil then
      if (g_cells (g_cells args).car).type = TSTRING then
        match execl_loop g_cells fuel (i + 1) (g_cells args).cdr with
        | some (.ok writes) =>
          some (.ok ((i, some (STRING g_cells (g_cells args).car)) :: writes))
        | some (.error arg) => some (.error arg)
        | none => none
      else some (.error (g_cells args).car)
    else some (.ok [(i, none)])

/-- `execl_`; `none` when the loop has not ended within `fuel` passes.
`length__` is not among the sources and is a parameter; `c_argv` has 1000
entries. -/
def execl_ (length__ : (Int → scm) → Int → Int) (g_cells : Int → scm) (fuel : Nat)
    (file_name args : Int) : Option Execl :=
  if length__ g_cells args > 1000 then some .too_many_arguments
  else
    match execl_loop g_cells fuel (0 + 1) args with
    | some (.ok writes) => some (.execv ((0, some (STRING g_cells file_name)) :: writes))
    | some (.error arg) => some (.assert_failed arg)
    | none => none

/-- `ListLength g_cells x n`: the cell `x` is a list of `n` elements, that is
`n` pairs linked by their second words up to `cell_nil`. -/
inductive ListLength (g_cells : Int → scm) : Int → Nat → Prop
  | nil : ListLength g_cells cell_nil 0
  | cons (x : Int) (n : Nat) : x ≠ cell_nil → (g_cells x).type = TPAIR →
      ListLength g_cells (g_cells x).cdr n → ListLength g_cells x (n + 1)

/-- A heap for examples with the string "a" at cell 2000, its bytes at cell
2001, and at each cell `n + 1` from 2 to 1999 a list of `n` elements, all of
them this string: the pair at cell `i` continues with the list at cell
`i - 1`, down to `cell_nil`, which is cell 1. -/
def argument_heap : Int → scm := fun i =>
  if i = 2000 then { type := TSTRING, car := 1, cdr := 2001 }
  else if i = 2001 then { type := TBYTES, car := 1, cdr := 97 }
  else if 2 ≤ i ∧ i < 2000 then { type := TPAIR, car := 2000, cdr := i - 1 }
  else { type := TSPECIAL, car := 0, cdr := 0 }

/-- The number of elements of the list at cell `x` of `argument_heap`, which
is `x - 1`: the value of `length__` on this heap. -/
def argument_length : (Int → scm) → Int → Int := fun _ x => x - 1

/-- The array `itoa_buf` of `ntoab`, as character codes, with the indices
that were assigned to, the latest first. -/
structure Ntoab where
  itoa_buf : Int → Int
  written : List Int

/-- The assignment `*p = c` of a character, with `p = itoa_buf + i`. -/
def Ntoab.put (s : Ntoab) (i c : Int) : Ntoab :=
  { itoa_buf := fun j => if j = i then c % 256 else s.itoa_buf j
    written := i :: s.written }

/-- The `do ... while (u)` loop of `ntoab`, run for at most `fuel` passes,
with `p = itoa_buf + i`: it returns the buffer and the index of `p` when the
loop ends.  The digit `long i = u % base` is `wrap w (u % base)`; the
character codes are 97 for 'a' and 48 for '0'. -/
def ntoab_loop (w : Nat) (base : Int) : Nat → Ntoab → Int → Int → Option (Ntoab × Int)
  | 0, _, _, _ => none
  | fuel + 1, s, i, u =>
    if u / base ≠ 0 then
      ntoab_loop w base fuel
        (s.put i (if wrap w (u % base) > 9 then 97 + wrap w (u % base) - 10
          else 48 + wrap w (u % base)))
        (i - 1) (u / base)
    else
      some (s.put i (if wrap w (u % base) > 9 then 97 + wrap w (u % base) - 10
        else 48 + wrap w (u % base)), i - 1)

/-- `ntoab`, returning the buffer and the index in it of the pointer
returned; `none` when the loop has not ended within `fuel` passes.  A `long`
has `w` bits; `unsigned long u = x` and `u = -x` reduce modulo `2 ^ w`, and so
does the conversion of `base` in `u % base`, which has no defined result when
it gives 0.  The character code of '-' is 45. -/
def ntoab (w : Nat) (fuel : Nat) (itoa_buf : Int → Int) (x base : Int) (signed_p : Bool) :
    Option (Except Signal (Ntoab × Int)) :=
  if base % 2 ^ w = 0 then some (.error Signal.undefined_division)
  else
    match ntoab_loop w (base % 2 ^ w) fuel
        (Ntoab.put { itoa_buf := itoa_buf, written := [] } 11 0) (11 - 1)
        (if signed_p = true ∧ x < 0 then wrap w (-x) % 2 ^ w else x % 2 ^ w) with
    | none => none
    | some (s, i) =>
      if (signed_p = true ∧ x < 0) ∧ s.itoa_buf (i + 1) ≠ 48 then
        some (.ok (s.put i 45, i - 1 + 1))
      else some (.ok (s, i + 1))

/-- `itoa`: `ntoab (x, 10, 1)`. -/
def itoa (w : Nat) (fuel : Nat) (itoa_buf : Int → Int) (x : Int) :
    Option (Except Signal (Ntoab × Int)) :=
  ntoab w fuel itoa_buf x 10 true

/-- The C string that starts at index `i` of a buffer: the characters before
the first 0, at most `n` of them. -/
def c_string (buf : Int → Int) : Nat → Int → List Int
  | 0, _ => []
  | n + 1, i => if buf i = 0 then [] else buf i :: c_string buf n (i + 1)

/-- The canonical decimal numeral of `x`, as character codes: "0" for zero,
otherwise the decimal digits of `|x|` from the most significant one on, which
is not 0, after a '-' when `x` is negative. -/
def decimal_numeral (x : Int) : List Int :=
  if x = 0 then [48]
  else (if x < 0 then [45] else []) ++
    (Nat.digits 10 x.natAbs).reverse.map (fun d : Nat => 48 + (d : Int))

/-- The integer that a decimal numeral, with or without a '-' in front,
stands for. -/
def decimal_value : List Int → Int
  | 45 :: ds => - ds.foldl (fun n c => 10 * n + (c - 48)) 0
  | ds => ds.foldl (fun n c => 10 * n + (c - 48)) 0

/-! ## Theorems -/

theorem assert_number_ok {g_cells : Int → scm} {name : String} {a : Int}
    (h : (g_cells a).type = TNUMBER) : assert_number g_cells name a = .ok () := by
  simp [assert_number, h]

theorem assert_number_error {g_cells : Int → scm} {name : String} {a : Int}
    (h : (g_cells a).type ≠ TNUMBER) :
    assert_number g_cells name a =
      .error (Signal.error ErrorKey.cell_symbol_not_a_number (Irritant.cell a)) := by
  simp [assert_number, h]

theorem wrap_wrap (w : Nat) (x : Int) : wrap w (wrap w x) = wrap w x := by
  simp [wrap]

theorem wrap_zero (w : Nat) : wrap w 0 = 0 := by
  simp [wrap]

theorem wrap_of_small (w : Nat) (x : Int) (h0 : 0 ≤ x) (h : 2 * x < 2 ^ w) : wrap w x = x := by
  have hpos : (0 : Int) < ((2 ^ w : Nat) : Int) := by positivity
  have hcast : (((2 ^ w : Nat) : Int)) = (2 : Int) ^ w := by push_cast; rfl
  have hx : x % ((2 ^ w : Nat) : Int) = x := Int.emod_eq_of_lt h0 (by rw [hcast]; omega)
  unfold wrap
  rw [Int.bmod_pos _ _ (by rw [hx, hcast]; omega), hx]

theorem plus_loop_numbers (w : Nat) (g_cells : Int → scm) :
    ∀ (x : List Int) (n : Int), (∀ a ∈ x, (g_cells a).type = TNUMBER) → wrap w n = n →
      plus_loop w g_cells n x = .ok (wrap w (n + (x.map (VALUE g_cells)).sum)) := by
  intro x
  induction x with
  | nil => intro n _ hn; simp [plus_loop, hn]
  | cons a x ih =>
    intro n hx _
    have ha : (g_cells a).type = TNUMBER := hx a (by simp)
    have hx2 : ∀ b ∈ x, (g_cells b).type = TNUMBER := fun b hb => hx b (by simp [hb])
    rw [plus_loop, assert_number_ok ha]
    show plus_loop w g_cells (wrap w (n + VALUE g_cells a)) x = _
    rw [ih _ hx2 (wrap_wrap w _)]
    simp only [wrap, List.map_cons, List.sum_cons, Int.bmod_add_bmod_congr, add_assoc]

theorem multiply_loop_numbers (w : Nat) (g_cells : Int → scm) :
    ∀ (x : List Int) (a n : Int), (∀ b ∈ a :: x, (g_cells b).type = TNUMBER) →
      multiply_loop w g_cells n (a :: x) =
        .ok (wrap w (n * ((a :: x).map (VALUE g_cells)).prod)) := by
  intro x
  induction x with
  | nil =>
    intro a n hx
    have ha : (g_cells a).type = TNUMBER := hx a (by simp)
    rw [multiply_loop, assert_number_ok ha]
    show multiply_loop w g_cells (wrap w (n * VALUE g_cells a)) [] = _
    simp [multiply_loop]
  | cons b x ih =>
    intro a n hx
    have ha : (g_cells a).type = TNUMBER := hx a (by simp)
    have hx2 : ∀ c ∈ b :: x, (g_cells c).type = TNUMBER := fun c hc => hx c (by simp [hc])
    rw [multiply_loop, assert_number_ok ha]
    show multiply_loop w g_cells (wrap w (n * VALUE g_cells a)) (b :: x) = _
    rw [ih b _ hx2]
    simp only [wrap, List.map_cons, List.prod_cons, Int.bmod_mul_bmod, mul_assoc]

theorem plus_numbers (w : Nat) (g_cells : Int → scm) (x : List Int)
    (hx : ∀ a ∈ x, (g_cells a).type = TNUMBER) :
    plus w g_cells x = .ok (MAKE_NUMBER (wrap w (x.map (VALUE g_cells)).sum)) := by
  unfold plus
  rw [plus_loop_numbers w g_cells x 0 hx (wrap_zero w)]
  simp
  rfl

theorem multiply_numbers (w : Nat) (g_cells : Int → scm) (x : List Int)
    (hx : ∀ a ∈ x, (g_cells a).type = TNUMBER) :
    multiply w g_cells x =
      .ok (MAKE_NUMBER (if x = [] then 1 else wrap w (x.map (VALUE g_cells)).prod)) := by
  unfold multiply
  cases x with
  | nil => rfl
  | cons a x =>
    rw [multiply_loop_numbers w g_cells x a 1 hx]
    simp
    rfl

theorem plus_loop_reject (w : Nat) (g_cells : Int → scm) (a : Int) (post : List Int)
    (ha : (g_cells a).type ≠ TNUMBER) :
    ∀ (pre : List Int) (n : Int), (∀ b ∈ pre, (g_cells b).type = TNUMBER) →
      plus_loop w g_cells n (pre ++ a :: post) =
        .error (Signal.error ErrorKey.cell_symbol_not_a_number (Irritant.cell a)) := by
  intro pre
  induction pre with
  | nil => intro n _; simp [plus_loop, assert_number_error ha]; rfl
  | cons b pre ih =>
    intro n hpre
    have hb : (g_cells b).type = TNUMBER := hpre b (by simp)
    rw [List.cons_append, plus_loop, assert_number_ok hb]
    exact ih _ (fun c hc => hpre c (by simp [hc]))

theorem multiply_loop_reject (w : Nat) (g_cells : Int → scm) (a : Int) (post : List Int)
    (ha : (g_cells a).type ≠ TNUMBER) :
    ∀ (pre : List Int) (n : Int), (∀ b ∈ pre, (g_cells b).type = TNUMBER) →
      multiply_loop w g_cells n (pre ++ a :: post) =
        .error (Signal.error ErrorKey.cell_symbol_not_a_number (Irritant.cell a)) := by
  intro pre
  induction pre with
  | nil => intro n _; simp [multiply_loop, assert_number_error ha]; rfl
  | cons b pre ih =>
    intro n hpre
    have hb : (g_cells b).type = TNUMBER := hpre b (by simp)
    rw [List.cons_append, multiply_loop, assert_number_ok hb]
    exact ih _ (fun c hc => hpre c (by simp [hc]))

theorem minus_loop_reject (w : Nat) (g_cells : Int → scm) (a : Int) (post : List Int)
    (ha : (g_cells a).type ≠ TNUMBER) :
    ∀ (pre : List Int) (n : Int), (∀ b ∈ pre, (g_cells b).type = TNUMBER) →
      minus_loop w g_cells n (pre ++ a :: post) =
        .error (Signal.error ErrorKey.cell_symbol_not_a_number (Irritant.cell a)) := by
  intro pre
  induction pre with
  | nil => intro n _; simp [minus_loop, assert_number_error ha]; rfl
  | cons b pre ih =>
    intro n hpre
    have hb : (g_cells b).type = TNUMBER := hpre b (by simp)
    rw [List.cons_append, minus_loop, assert_number_ok hb]
    exact ih _ (fun c hc => hpre c (by simp [hc]))

theorem logand_loop_reject (g_cells : Int → scm) (a : Int) (post : List Int)
    (ha : (g_cells a).type ≠ TNUMBER) :
    ∀ (pre : List Int) (n : Int), (∀ b ∈ pre, (g_cells b).type = TNUMBER) →
      logand_loop g_cells n (pre ++ a :: post) =
        .error (Signal.error ErrorKey.cell_symbol_not_a_number (Irritant.cell a)) := by
  intro pre
  induction pre with
  | nil => intro n _; simp [logand_loop, assert_number_error ha]; rfl
  | cons b pre ih =>
    intro n hpre
    have hb : (g_cells b).type = TNUMBER := hpre b (by simp)
    rw [List.cons_append, logand_loop, assert_number_ok hb]
    exact ih _ (fun c hc => hpre c (by simp [hc]))

theorem logior_loop_reject (g_cells : Int → scm) (a : Int) (post : List Int)
    (ha : (g_cells a).type ≠ TNUMBER) :
    ∀ (pre : List Int) (n : Int), (∀ b ∈ pre, (g_cells b).type = TNUMBER) →
      logior_loop g_cells n (pre ++ a :: post) =
        .error (Signal.error ErrorKey.cell_symbol_not_a_number (Irritant.cell a)) := by
  intro pre
  induction pre with
  | nil => intro n _; simp [logior_loop, assert_number_error ha]; rfl
  | cons b pre ih =>
    intro n hpre
    have hb : (g_cells b).type = TNUMBER := hpre b (by simp)
    rw [List.cons_append, logior_loop, assert_number_ok hb]
    exact ih _ (fun c hc => hpre c (by simp [hc]))

theorem logxor_loop_reject (g_cells : Int → scm) (a : Int) (post : List Int)
    (ha : (g_cells a).type ≠ TNUMBER) :
    ∀ (pre : List Int) (n : Int), (∀ b ∈ pre, (g_cells b).type = TNUMBER) →
      logxor_loop g_cells n (pre ++ a :: post) =
        .error (Signal.error ErrorKey.cell_symbol_not_a_number (Irritant.cell a)) := by
  intro pre
  induction pre with
  | nil => intro n _; simp [logxor_loop, assert_number_error ha]; rfl
  | cons b pre ih =>
    intro n hpre
    have hb : (g_cells b).type = TNUMBER := hpre b (by simp)
    rw [List.cons_append, logxor_loop, assert_number_ok hb]
    exact ih _ (fun c hc => hpre c (by simp [hc]))

theorem less_p_loop_reject (g_cells : Int → scm) (a : Int) (post : List Int)
    (ha : (g_cells a).type ≠ TNUMBER) :
    ∀ (pre : List Int) (n : Int), (∀ b ∈ pre, (g_cells b).type = TNUMBER) →
      (less_p_loop g_cells n pre = .ok cell_t ∧
        less_p_loop g_cells n (pre ++ a :: post) =
          .error (Signal.error ErrorKey.cell_symbol_not_a_number (Irritant.cell a))) ∨
      (less_p_loop g_cells n pre = .ok cell_f ∧
        less_p_loop g_cells n (pre ++ a :: post) = .ok cell_f) := by
  intro pre
  induction pre with
  | nil =>
    intro n _
    left
    refine ⟨rfl, ?_⟩
    simp [less_p_loop, assert_number_error ha]; rfl
  | cons b pre ih =>
    intro n hpre
    have hb : (g_cells b).type = TNUMBER := hpre b (by simp)
    rw [List.cons_append, less_p_loop, less_p_loop, assert_number_ok hb]
    by_cases hc : VALUE g_cells b ≤ n
    · right
      simp [hc, bind, Except.bind]
    · have := ih (VALUE g_cells b) (fun c hc => hpre c (by simp [hc]))
      simpa [hc, bind, Except.bind] using this

theorem greater_p_loop_reject (g_cells : Int → scm) (a : Int) (post : List Int)
    (ha : (g_cells a).type ≠ TNUMBER) :
    ∀ (pre : List Int) (n : Int), (∀ b ∈ pre, (g_cells b).type = TNUMBER) →
      (greater_p_loop g_cells n pre = .ok cell_t ∧
        greater_p_loop g_cells n (pre ++ a :: post) =
          .error (Signal.error ErrorKey.cell_symbol_not_a_number (Irritant.cell a))) ∨
      (greater_p_loop g_cells n pre = .ok cell_f ∧
        greater_p_loop g_cells n (pre ++ a :: post) = .ok cell_f) := by
  intro pre
  induction pre with
  | nil =>
    intro n _
    left
    refine ⟨rfl, ?_⟩
    simp [greater_p_loop, assert_number_error ha]; rfl
  | cons b pre ih =>
    intro n hpre
    have hb : (g_cells b).type = TNUMBER := hpre b (by simp)
    rw [List.cons_append, greater_p_loop, greater_p_loop, assert_number_ok hb]
    by_cases hc : VALUE g_cells b ≥ n
    · right
      simp [hc, bind, Except.bind]
    · have := ih (VALUE g_cells b) (fun c hc => hpre c (by simp [hc]))
      simpa [hc, bind, Except.bind] using this

/-- The loop of `divide` on numbers `pre` followed by `a`, which is not a
number: the loop is left at an element of `pre` exactly when `pre` is not
empty and the loop is left with 0 on `pre` without its last element (the
`break` is then taken at the latest at this last element) or has no defined
result on `pre`; otherwise `a` is reached and asserted. -/
theorem divide_loop_reach (w : Nat) (g_cells : Int → scm) (a : Int) (post : List Int)
    (ha : (g_cells a).type ≠ TNUMBER) :
    ∀ (pre : List Int) (n : Int), (∀ b ∈ pre, (g_cells b).type = TNUMBER) →
      ((pre ≠ [] ∧ (divide_loop w g_cells n pre.dropLast = .ok 0 ∨
          divide_loop w g_cells n pre = .error Signal.undefined_division)) →
        divide_loop w g_cells n (pre ++ a :: post) = divide_loop w g_cells n pre ∧
        (divide_loop w g_cells n pre = .ok 0 ∨
          divide_loop w g_cells n pre = .error Signal.undefined_division)) ∧
      (¬ (pre ≠ [] ∧ (divide_loop w g_cells n pre.dropLast = .ok 0 ∨
          divide_loop w g_cells n pre = .error Signal.undefined_division)) →
        divide_loop w g_cells n (pre ++ a :: post) =
          .error (Signal.error ErrorKey.cell_symbol_not_a_number (Irritant.cell a))) := by
  intro pre
  induction pre with
  | nil =>
    intro n _
    refine ⟨fun h => absurd rfl h.1, fun _ => ?_⟩
    simp [divide_loop, assert_number_error ha]; rfl
  | cons b pre ih =>
    intro n hpre
    have hb : (g_cells b).type = TNUMBER := hpre b (by simp)
    have hpre2 : ∀ c ∈ pre, (g_cells c).type = TNUMBER := fun c hc => hpre c (by simp [hc])
    have hstep : ∀ l : List Int, divide_loop w g_cells n (b :: l) =
        if n = 0 then .ok n
        else if VALUE g_cells b = 0 then .error Signal.undefined_division
        else if n = -(2 ^ (w - 1)) ∧ VALUE g_cells b = -1 then .error Signal.undefined_division
        else divide_loop w g_cells (wrap w (Int.tdiv n (VALUE g_cells b))) l := by
      intro l
      rw [divide_loop, assert_number_ok hb]
      rfl
    rw [List.cons_append, hstep, hstep]
    by_cases hn : n = 0
    · rw [if_pos hn, if_pos hn]
      refine ⟨fun _ => ⟨rfl, Or.inl (by rw [hn])⟩, fun h => absurd ⟨by simp, Or.inl ?_⟩ h⟩
      cases pre with
      | nil => rw [hn]; rfl
      | cons c pre => rw [List.dropLast_cons₂, hstep, if_pos hn, hn]
    · rw [if_neg hn, if_neg hn]
      by_cases hv : VALUE g_cells b = 0
      · rw [if_pos hv, if_pos hv]
        exact ⟨fun _ => ⟨rfl, Or.inr rfl⟩, fun h => absurd ⟨by simp, Or.inr rfl⟩ h⟩
      · rw [if_neg hv, if_neg hv]
        by_cases ho : n = -(2 ^ (w - 1)) ∧ VALUE g_cells b = -1
        · rw [if_pos ho, if_pos ho]
          exact ⟨fun _ => ⟨rfl, Or.inr rfl⟩, fun h => absurd ⟨by simp, Or.inr rfl⟩ h⟩
        · rw [if_neg ho, if_neg ho]
          have hiff : (b :: pre ≠ [] ∧ (divide_loop w g_cells n (b :: pre).dropLast = .ok 0 ∨
                divide_loop w g_cells (wrap w (Int.tdiv n (VALUE g_cells b))) pre =
                  .error Signal.undefined_division)) ↔
              (pre ≠ [] ∧ (divide_loop w g_cells (wrap w (Int.tdiv n (VALUE g_cells b)))
                  pre.dropLast = .ok 0 ∨
                divide_loop w g_cells (wrap w (Int.tdiv n (VALUE g_cells b))) pre =
                  .error Signal.undefined_division)) := by
            cases pre with
            | nil =>
              simp only [List.dropLast_single, divide_loop, ne_eq, not_true_eq_false,
                false_and, iff_false, not_and, not_or]
              intro _
              refine ⟨?_, by simp⟩
              intro h
              exact hn (by simpa using h)
            | cons c pre =>
              rw [List.dropLast_cons₂, hstep, if_neg hn, if_neg hv, if_neg ho]
              simp
          rw [hiff]
          exact ih _ hpre2

/-- `divide` on a list that starts with a number, in terms of its loop. -/
theorem divide_cons (w : Nat) (g_cells : Int → scm) (b : Int) (l : List Int)
    (hb : (g_cells b).type = TNUMBER) :
    (divide w g_cells (b :: l) = .ok (MAKE_NUMBER 0) ↔
      divide_loop w g_cells (VALUE g_cells b) l = .ok 0) ∧
    (divide w g_cells (b :: l) = .error Signal.undefined_division ↔
      divide_loop w g_cells (VALUE g_cells b) l = .error Signal.undefined_division) ∧
    (∀ a, divide w g_cells (b :: l) =
        .error (Signal.error ErrorKey.cell_symbol_not_a_number (Irritant.cell a)) ↔
      divide_loop w g_cells (VALUE g_cells b) l =
        .error (Signal.error ErrorKey.cell_symbol_not_a_number (Irritant.cell a))) ∧
    (∀ l2, divide_loop w g_cells (VALUE g_cells b) l = divide_loop w g_cells (VALUE g_cells b) l2 →
      divide w g_cells (b :: l) = divide w g_cells (b :: l2)) := by
  have h : ∀ l, divide w g_cells (b :: l) =
      match divide_loop w g_cells (VALUE g_cells b) l with
      | .ok n => .ok (MAKE_NUMBER n)
      | .error e => .error e := by
    intro l
    rw [divide, assert_number_ok hb]
    cases hl : divide_loop w g_cells (VALUE g_cells b) l <;> simp [bind, Except.bind, hl]
  refine ⟨?_, ?_, ?_, ?_⟩
  · rw [h]
    cases divide_loop w g_cells (VALUE g_cells b) l with
    | ok n => simp [MAKE_NUMBER]
    | error e => simp
  · rw [h]
    cases divide_loop w g_cells (VALUE g_cells b) l with
    | ok n => simp
    | error e => simp
  · intro a
    rw [h]
    cases divide_loop w g_cells (VALUE g_cells b) l with
    | ok n => simp
    | error e => simp
  · intro l2 e
    rw [h, h, e]

/-- `divide` on numbers `pre` followed by `a`, which is not a number: either
the loop is left at a number of `pre` (there are at least two, and `divide`
returns 0 on `pre` without its last element or has no defined result on
`pre`), and the outcome is that on `pre`; or `a` is reached and not-a-number is
signalled for it. -/
theorem divide_reach (w : Nat) (g_cells : Int → scm) (pre : List Int) (a : Int)
    (post : List Int) (hpre : ∀ b ∈ pre, (g_cells b).type = TNUMBER)
    (ha : (g_cells a).type ≠ TNUMBER) :
    ((2 ≤ pre.length ∧ (divide w g_cells pre.dropLast = .ok (MAKE_NUMBER 0) ∨
          divide w g_cells pre = .error Signal.undefined_division)) ∧
        divide w g_cells (pre ++ a :: post) = divide w g_cells pre ∧
        (divide w g_cells pre = .ok (MAKE_NUMBER 0) ∨
          divide w g_cells pre = .error Signal.undefined_division)) ∨
      (¬ (2 ≤ pre.length ∧ (divide w g_cells pre.dropLast = .ok (MAKE_NUMBER 0) ∨
          divide w g_cells pre = .error Signal.undefined_division)) ∧
        divide w g_cells (pre ++ a :: post) =
          .error (Signal.error ErrorKey.cell_symbol_not_a_number (Irritant.cell a))) := by
  cases pre with
  | nil =>
    right
    refine ⟨fun h => absurd h.1 (by simp), ?_⟩
    simp [divide, assert_number_error ha, bind, Except.bind]
  | cons b pre =>
    have hb : (g_cells b).type = TNUMBER := hpre b (by simp)
    have hpre2 : ∀ c ∈ pre, (g_cells c).type = TNUMBER := fun c hc => hpre c (by simp [hc])
    obtain ⟨r1, r2⟩ := divide_loop_reach w g_cells a post ha pre (VALUE g_cells b) hpre2
    obtain ⟨d1, d2, -, d4⟩ := divide_cons w g_cells b pre hb
    obtain ⟨-, -, e3, -⟩ := divide_cons w g_cells b (pre ++ a :: post) hb
    have hiff : (2 ≤ (b :: pre).length ∧
          (divide w g_cells (b :: pre).dropLast = .ok (MAKE_NUMBER 0) ∨
            divide w g_cells (b :: pre) = .error Signal.undefined_division)) ↔
        (pre ≠ [] ∧ (divide_loop w g_cells (VALUE g_cells b) pre.dropLast = .ok 0 ∨
          divide_loop w g_cells (VALUE g_cells b) pre = .error Signal.undefined_division)) := by
      cases pre with
      | nil => simp
      | cons c pre =>
        rw [List.dropLast_cons₂, (divide_cons w g_cells b (c :: pre).dropLast hb).1, d2]
        simp
    rw [hiff, List.cons_append]
    by_cases hs : pre ≠ [] ∧ (divide_loop w g_cells (VALUE g_cells b) pre.dropLast = .ok 0 ∨
        divide_loop w g_cells (VALUE g_cells b) pre = .error Signal.undefined_division)
    · left
      obtain ⟨q1, q2⟩ := r1 hs
      exact ⟨hs, (d4 _ q1.symm).symm, q2.imp d1.mpr d2.mpr⟩
    · right
      exact ⟨hs, (e3 a).mpr (r2 hs)⟩

/-- C6: on a list of number cells `plus` returns the number cell holding the
machine-word sum of the values and `multiply` the one holding their product;
`(+)` is 0, `(*)` is 1 and `(+ 1 2 3)` is 6. -/
theorem plus_multiply_value (w : Nat) (hw : 4 ≤ w) (g_cells : Int → scm) (x : List Int)
    (hx : ∀ a ∈ x, (g_cells a).type = TNUMBER) :
    plus w g_cells x = .ok (MAKE_NUMBER (wrap w (x.map (VALUE g_cells)).sum)) ∧
    multiply w g_cells x = .ok (MAKE_NUMBER (wrap w (x.map (VALUE g_cells)).prod)) ∧
    plus w g_cells [] = .ok (MAKE_NUMBER 0) ∧
    multiply w g_cells [] = .ok (MAKE_NUMBER 1) ∧
    (∀ a b c : Int, x = [a, b, c] → VALUE g_cells a = 1 → VALUE g_cells b = 2 →
      VALUE g_cells c = 3 → plus w g_cells x = .ok (MAKE_NUMBER 6)) := by
  have h16 : (2 : Int) ^ 4 ≤ 2 ^ w := pow_le_pow_right₀ (by norm_num) hw
  have h1 : wrap w 1 = 1 := wrap_of_small w 1 (by norm_num) (by omega)
  have h6 : wrap w 6 = 6 := wrap_of_small w 6 (by norm_num) (by omega)
  refine ⟨plus_numbers w g_cells x hx, ?_, rfl, rfl, ?_⟩
  · rw [multiply_numbers w g_cells x hx]
    by_cases hnil : x = []
    · simp [hnil, h1]
    · simp [hnil]
  · intro a b c hxe ha hb hc
    rw [plus_numbers w g_cells x hx, hxe]
    simp [ha, hb, hc, h6]

/-- Witness for C6 at the list (1 2 3) with 64-bit words. -/
theorem plus_multiply_value_witness :
    4 ≤ 64 ∧ (∀ a ∈ [(11 : Int), 12, 13], (number_heap a).type = TNUMBER) ∧
    (plus 64 number_heap [11, 12, 13] =
        .ok (MAKE_NUMBER (wrap 64 ([(11 : Int), 12, 13].map (VALUE number_heap)).sum)) ∧
      multiply 64 number_heap [11, 12, 13] =
        .ok (MAKE_NUMBER (wrap 64 ([(11 : Int), 12, 13].map (VALUE number_heap)).prod)) ∧
      plus 64 number_heap [] = .ok (MAKE_NUMBER 0) ∧
      multiply 64 number_heap [] = .ok (MAKE_NUMBER 1) ∧
      (∀ a b c : Int, [(11 : Int), 12, 13] = [a, b, c] → VALUE number_heap a = 1 →
        VALUE number_heap b = 2 → VALUE number_heap c = 3 →
        plus 64 number_heap [11, 12, 13] = .ok (MAKE_NUMBER 6))) :=
  ⟨by decide, by decide, plus_multiply_value 64 (by decide) number_heap [11, 12, 13] (by decide)⟩

/-- C7: `plus` and `multiply` are commutative over N arguments: on a list of
number cells and on any permutation of it each returns the same result. -/
theorem plus_multiply_perm (w : Nat) (g_cells : Int → scm) (x y : List Int)
    (hx : ∀ a ∈ x, (g_cells a).type = TNUMBER) (hp : List.Perm x y) :
    plus w g_cells x = plus w g_cells y ∧ multiply w g_cells x = multiply w g_cells y := by
  have hy : ∀ a ∈ y, (g_cells a).type = TNUMBER := fun a ha => hx a (hp.mem_iff.mpr ha)
  have hs : (x.map (VALUE g_cells)).sum = (y.map (VALUE g_cells)).sum :=
    (hp.map (VALUE g_cells)).sum_eq
  have hm : (x.map (VALUE g_cells)).prod = (y.map (VALUE g_cells)).prod :=
    (hp.map (VALUE g_cells)).prod_eq
  have hn : x = [] ↔ y = [] := by
    constructor
    · intro h; subst h; exact hp.symm.eq_nil
    · intro h; subst h; exact hp.eq_nil
  refine ⟨?_, ?_⟩
  · rw [plus_numbers w g_cells x hx, plus_numbers w g_cells y hy, hs]
  · rw [multiply_numbers w g_cells x hx, multiply_numbers w g_cells y hy, hm]
    by_cases h : x = []
    · simp [h, hn.mp h]
    · simp [h, mt hn.mpr h]

/-- Witness for C7: (1 2 3) against (3 1 2). -/
theorem plus_multiply_perm_witness :
    (∀ a ∈ [(11 : Int), 12, 13], (number_heap a).type = TNUMBER) ∧
    List.Perm [(11 : Int), 12, 13] [13, 11, 12] ∧
    (plus 64 number_heap [11, 12, 13] = plus 64 number_heap [13, 11, 12] ∧
      multiply 64 number_heap [11, 12, 13] = multiply 64 number_heap [13, 11, 12]) :=
  ⟨by decide, by decide,
    plus_multiply_perm 64 number_heap [11, 12, 13] [13, 11, 12] (by decide) (by decide)⟩

/-- C8: `(logand 7 3)` returns the number cell 0 although the bitwise AND of
7 and 3 is 3: the accumulator of `logand` starts at 0. -/
theorem logand_seven_three :
    (∀ a ∈ [(17 : Int), 13], (number_heap a).type = TNUMBER) ∧
    VALUE number_heap 17 = 7 ∧ VALUE number_heap 13 = 3 ∧ Int.land 7 3 = 3 ∧
    logand number_heap [17, 13] = .ok (MAKE_NUMBER 0) :=
  ⟨by decide, by decide, by decide, by decide, rfl⟩

/-- C9, as stated, fails: `(< 2 1 x)` with `x` a symbol returns #f and never
signals not-a-number for `x`. -/
theorem less_p_skips_assert :
    5 ∈ [(12 : Int), 11, 5] ∧ (number_heap 5).type ≠ TNUMBER ∧
    less_p number_heap [12, 11, 5] = .ok cell_f :=
  ⟨by decide, by decide, rfl⟩

/-- C9, amended: every numeric primitive asserts the type of an argument when
it reaches it.  With `a` the first element that is not a number: `+`, `-`,
`*`, `logior`, `logxor` and `logand` signal not-a-number for `a`; `<` and `>`
signal it when the numbers before `a` are in order and otherwise return #f
without looking at `a`; `/` signals it unless its loop is left at a number
before `a`, which is the case exactly when there are at least two numbers
before `a` and `/` returns 0 on them without the last one (the `break` is
taken at the last one or earlier) or has no defined result on them, and the
outcome is then the one on the numbers before `a`, 0 or no defined result;
`=` signals it when `a` is the first argument. -/
theorem numeric_primitives_assert (w : Nat) (g_cells : Int → scm) (pre : List Int) (a : Int)
    (post : List Int) (hpre : ∀ b ∈ pre, (g_cells b).type = TNUMBER)
    (ha : (g_cells a).type ≠ TNUMBER) :
    plus w g_cells (pre ++ a :: post) =
      .error (Signal.error ErrorKey.cell_symbol_not_a_number (Irritant.cell a)) ∧
    minus w g_cells (pre ++ a :: post) =
      .error (Signal.error ErrorKey.cell_symbol_not_a_number (Irritant.cell a)) ∧
    multiply w g_cells (pre ++ a :: post) =
      .error (Signal.error ErrorKey.cell_symbol_not_a_number (Irritant.cell a)) ∧
    logior g_cells (pre ++ a :: post) =
      .error (Signal.error ErrorKey.cell_symbol_not_a_number (Irritant.cell a)) ∧
    logxor g_cells (pre ++ a :: post) =
      .error (Signal.error ErrorKey.cell_symbol_not_a_number (Irritant.cell a)) ∧
    logand g_cells (pre ++ a :: post) =
      .error (Signal.error ErrorKey.cell_symbol_not_a_number (Irritant.cell a)) ∧
    ((less_p g_cells pre = .ok cell_t ∧ less_p g_cells (pre ++ a :: post) =
        .error (Signal.error ErrorKey.cell_symbol_not_a_number (Irritant.cell a))) ∨
      (less_p g_cells pre = .ok cell_f ∧ less_p g_cells (pre ++ a :: post) = .ok cell_f)) ∧
    ((greater_p g_cells pre = .ok cell_t ∧ greater_p g_cells (pre ++ a :: post) =
        .error (Signal.error ErrorKey.cell_symbol_not_a_number (Irritant.cell a))) ∨
      (greater_p g_cells pre = .ok cell_f ∧
        greater_p g_cells (pre ++ a :: post) = .ok cell_f)) ∧
    (((2 ≤ pre.length ∧ (divide w g_cells pre.dropLast = .ok (MAKE_NUMBER 0) ∨
          divide w g_cells pre = .error Signal.undefined_division)) ∧
        divide w g_cells (pre ++ a :: post) = divide w g_cells pre ∧
        (divide w g_cells pre = .ok (MAKE_NUMBER 0) ∨
          divide w g_cells pre = .error Signal.undefined_division)) ∨
      (¬ (2 ≤ pre.length ∧ (divide w g_cells pre.dropLast = .ok (MAKE_NUMBER 0) ∨
          divide w g_cells pre = .error Signal.undefined_division)) ∧
        divide w g_cells (pre ++ a :: post) =
          .error (Signal.error ErrorKey.cell_symbol_not_a_number (Irritant.cell a)))) ∧
    (pre = [] → is_p g_cells (pre ++ a :: post) =
      .error (Signal.error ErrorKey.cell_symbol_not_a_number (Irritant.cell a))) := by
  refine ⟨?_, ?_, ?_, ?_, ?_, ?_, ?_, ?_, ?_, ?_⟩
  · simp [plus, plus_loop_reject w g_cells a post ha pre 0 hpre, bind, Except.bind]
  · cases pre with
    | nil => simp [minus, assert_number_error ha, bind, Except.bind]
    | cons b pre =>
      have hb : (g_cells b).type = TNUMBER := hpre b (by simp)
      have hr := minus_loop_reject w g_cells a post ha pre (VALUE g_cells b)
        (fun c hc => hpre c (by simp [hc]))
      simp [minus, assert_number_ok hb, hr, bind, Except.bind]
  · simp [multiply, multiply_loop_reject w g_cells a post ha pre 1 hpre, bind, Except.bind]
  · simp [logior, logior_loop_reject g_cells a post ha pre 0 hpre, bind, Except.bind]
  · simp [logxor, logxor_loop_reject g_cells a post ha pre 0 hpre, bind, Except.bind]
  · simp [logand, logand_loop_reject g_cells a post ha pre 0 hpre, bind, Except.bind]
  · cases pre with
    | nil => left; simp [less_p, assert_number_error ha, bind, Except.bind]
    | cons b pre =>
      have hb : (g_cells b).type = TNUMBER := hpre b (by simp)
      have hr := less_p_loop_reject g_cells a post ha pre (VALUE g_cells b)
        (fun c hc => hpre c (by simp [hc]))
      simpa [less_p, assert_number_ok hb, bind, Except.bind] using hr
  · cases pre with
    | nil => left; simp [greater_p, assert_number_error ha, bind, Except.bind]
    | cons b pre =>
      have hb : (g_cells b).type = TNUMBER := hpre b (by simp)
      have hr := greater_p_loop_reject g_cells a post ha pre (VALUE g_cells b)
        (fun c hc => hpre c (by simp [hc]))
      simpa [greater_p, assert_number_ok hb, bind, Except.bind] using hr
  · exact divide_reach w g_cells pre a post hpre ha
  · intro h
    subst h
    simp [is_p, assert_number_error ha, bind, Except.bind]

/-- Witness for the amended C9: the arguments (1 2 x 3) with `x` a symbol;
`(/ 1 2 x 3)` reaches `x` although the quotient is 0 by then. -/
theorem numeric_primitives_assert_witness :
    (∀ b ∈ [(11 : Int), 12], (number_heap b).type = TNUMBER) ∧
    (number_heap 5).type ≠ TNUMBER ∧
    (plus 64 number_heap ([11, 12] ++ 5 :: [13]) =
      .error (Signal.error ErrorKey.cell_symbol_not_a_number (Irritant.cell 5)) ∧
    minus 64 number_heap ([11, 12] ++ 5 :: [13]) =
      .error (Signal.error ErrorKey.cell_symbol_not_a_number (Irritant.cell 5)) ∧
    multiply 64 number_heap ([11, 12] ++ 5 :: [13]) =
      .error (Signal.error ErrorKey.cell_symbol_not_a_number (Irritant.cell 5)) ∧
    logior number_heap ([11, 12] ++ 5 :: [13]) =
      .error (Signal.error ErrorKey.cell_symbol_not_a_number (Irritant.cell 5)) ∧
    logxor number_heap ([11, 12] ++ 5 :: [13]) =
      .error (Signal.error ErrorKey.cell_symbol_not_a_number (Irritant.cell 5)) ∧
    logand number_heap ([11, 12] ++ 5 :: [13]) =
      .error (Signal.error ErrorKey.cell_symbol_not_a_number (Irritant.cell 5)) ∧
    ((less_p number_heap [11, 12] = .ok cell_t ∧ less_p number_heap ([11, 12] ++ 5 :: [13]) =
        .error (Signal.error ErrorKey.cell_symbol_not_a_number (Irritant.cell 5))) ∨
      (less_p number_heap [11, 12] = .ok cell_f ∧
        less_p number_heap ([11, 12] ++ 5 :: [13]) = .ok cell_f)) ∧
    ((greater_p number_heap [11, 12] = .ok cell_t ∧
        greater_p number_heap ([11, 12] ++ 5 :: [13]) =
        .error (Signal.error ErrorKey.cell_symbol_not_a_number (Irritant.cell 5))) ∨
      (greater_p number_heap [11, 12] = .ok cell_f ∧
        greater_p number_heap ([11, 12] ++ 5 :: [13]) = .ok cell_f)) ∧
    (((2 ≤ [(11 : Int), 12].length ∧
          (divide 64 number_heap [(11 : Int), 12].dropLast = .ok (MAKE_NUMBER 0) ∨
          divide 64 number_heap [11, 12] = .error Signal.undefined_division)) ∧
        divide 64 number_heap ([11, 12] ++ 5 :: [13]) = divide 64 number_heap [11, 12] ∧
        (divide 64 number_heap [11, 12] = .ok (MAKE_NUMBER 0) ∨
          divide 64 number_heap [11, 12] = .error Signal.undefined_division)) ∨
      (¬ (2 ≤ [(11 : Int), 12].length ∧
          (divide 64 number_heap [(11 : Int), 12].dropLast = .ok (MAKE_NUMBER 0) ∨
          divide 64 number_heap [11, 12] = .error Signal.undefined_division)) ∧
        divide 64 number_heap ([11, 12] ++ 5 :: [13]) =
          .error (Signal.error ErrorKey.cell_symbol_not_a_number (Irritant.cell 5)))) ∧
    (([11, 12] : List Int) = [] → is_p number_heap ([11, 12] ++ 5 :: [13]) =
      .error (Signal.error ErrorKey.cell_symbol_not_a_number (Irritant.cell 5)))) :=
  ⟨by decide, by decide,
    numeric_primitives_assert 64 number_heap [11, 12] 5 [13] (by decide) (by decide)⟩

/-- The quotient of the least 64-bit `long` by -1 is not a `long`: `divide` has
no defined result on these two numbers. -/
theorem divide_least_minus_one :
    VALUE signed_heap (100 - 2 ^ 63) = -(2 ^ 63) ∧ VALUE signed_heap 99 = -1 ∧
    divide 64 signed_heap [100 - 2 ^ 63, 99] = .error Signal.undefined_division :=
  ⟨by decide, by decide, rfl⟩

/-- C10, the failing input: `(/ 1 0)`.  `divide` asserts both arguments,
finds `n = 1` not 0 and executes `n /= 0`, for which C defines no result: it
neither calls `error (key, irritant)` nor returns a number cell. -/
theorem divide_one_zero :
    (∀ a ∈ [(11 : Int), 10], (number_heap a).type = TNUMBER) ∧
    VALUE number_heap 11 = 1 ∧ VALUE number_heap 10 = 0 ∧
    divide 64 number_heap [11, 10] = .error Signal.undefined_division ∧
    (∀ key x, divide 64 number_heap [11, 10] ≠ .error (Signal.error key x)) ∧
    (∀ n, divide 64 number_heap [11, 10] ≠ .ok n) :=
  ⟨by decide, by decide, by decide, rfl, fun _ _ h => Except.noConfusion h
    (fun h2 => Signal.noConfusion h2), fun _ h => Except.noConfusion h⟩

/-! ### The collector -/

theorem gc_copy_of_forwarded (bc : Int → Int) (s : Machine) (old : Int)
    (h : (s.g_cells old).type = TBROKEN_HEART) :
    gc_copy bc s old = (s, (s.g_cells old).car) := by
  simp [gc_copy, h]

theorem gc_copy_snd (bc : Int → Int) (s : Machine) (old : Int)
    (h : (s.g_cells old).type ≠ TBROKEN_HEART) :
    (gc_copy bc s old).2 = s.g_free := by
  simp [gc_copy, h]

theorem gc_copy_g_cells (bc : Int → Int) (s : Machine) (old : Int)
    (h : (s.g_cells old).type ≠ TBROKEN_HEART) (x : Int) :
    (gc_copy bc s old).1.g_cells x =
      if x = old then { type := TBROKEN_HEART, car := s.g_free, cdr := (s.g_cells old).cdr }
      else s.g_cells x := by
  simp only [gc_copy, h, if_false]
  split_ifs <;> simp_all

theorem gc_copy_g_free (bc : Int → Int) (s : Machine) (old : Int)
    (h : (s.g_cells old).type ≠ TBROKEN_HEART) :
    (gc_copy bc s old).1.g_free =
      if (s.g_cells old).type = TSTRUCT ∨ (s.g_cells old).type = TVECTOR then
        s.g_free + 1 + max 0 (s.g_cells old).car
      else if (s.g_cells old).type = TBYTES then s.g_free + bc (s.g_cells old).car
      else s.g_free + 1 := by
  simp only [gc_copy, h, if_false]
  split_ifs <;> simp

theorem gc_copy_g_news_new (bc : Int → Int) (s : Machine) (old : Int)
    (h : (s.g_cells old).type ≠ TBROKEN_HEART) :
    ((gc_copy bc s old).1.g_news s.g_free).type = (s.g_cells old).type ∧
    ((gc_copy bc s old).1.g_news s.g_free).car = (s.g_cells old).car ∧
    (((s.g_cells old).type ≠ TSTRUCT ∧ (s.g_cells old).type ≠ TVECTOR) →
      ((gc_copy bc s old).1.g_news s.g_free).cdr = (s.g_cells old).cdr) := by
  simp only [gc_copy, h, if_false]
  split_ifs with h1 h2
  · rcases h1 with h1 | h1 <;> simp [h1]
  · simp
  · simp

/-- After `gc_copy (old)` the cell `old` is forwarded to the returned index. -/
theorem gc_copy_forwards (bc : Int → Int) (s : Machine) (old : Int) :
    ForwardedTo (gc_copy bc s old).1 old (gc_copy bc s old).2 := by
  unfold ForwardedTo
  by_cases h : (s.g_cells old).type = TBROKEN_HEART
  · rw [gc_copy_of_forwarded bc s old h]; exact ⟨h, rfl⟩
  · rw [gc_copy_g_cells bc s old h, gc_copy_snd bc s old h]; simp

theorem gc_copy_globals (bc : Int → Int) (s : Machine) (old : Int) :
    SameGlobals s (gc_copy bc s old).1 := by
  unfold SameGlobals
  by_cases h : (s.g_cells old).type = TBROKEN_HEART
  · simp [gc_copy_of_forwarded bc s old h]
  · simp only [gc_copy, h, if_false]
    split_ifs <;> simp

/-- C5: each cell is copied at most once per collection: a second
`gc_copy (old)` returns the index the first call returned and leaves the
whole state, so `g_free` and every cell of both spaces, unchanged. -/
theorem gc_copy_twice (bytes_cells : Int → Int) (s : Machine) (old : Int) :
    gc_copy bytes_cells (gc_copy bytes_cells s old).1 old =
      ((gc_copy bytes_cells s old).1, (gc_copy bytes_cells s old).2) := by
  have h := gc_copy_forwards bytes_cells s old
  rw [gc_copy_of_forwarded bytes_cells _ old h.1, h.2]

theorem SameGlobals.trans {s t u : Machine} (h1 : SameGlobals s t) (h2 : SameGlobals t u) :
    SameGlobals s u := by
  obtain ⟨a1, a2, a3, a4, a5, a6, a7, a8, a9, a10, a11, a12⟩ := h1
  obtain ⟨b1, b2, b3, b4, b5, b6, b7, b8, b9, b10, b11, b12⟩ := h2
  exact ⟨b1.trans a1, b2.trans a2, b3.trans a3, b4.trans a4, b5.trans a5, b6.trans a6,
    b7.trans a7, b8.trans a8, b9.trans a9, b10.trans a10, b11.trans a11, b12.trans a12⟩

theorem gc_done (bc : Int → Int) (fuel : Nat) (s t : Machine) (h : gc_ bc fuel s = .done t) :
    ∃ t0, gc_loop_scan bc fuel (gc_roots bc s) 1 = .done t0 ∧ t = gc_flip t0 := by
  unfold gc_ gc_loop at h
  split at h
  · rename_i t0 h0
    cases h
    exact ⟨t0, h0, rfl⟩
  · cases h
  · cases h

theorem scan_next_gt (bc : Int → Int) (hbc : ∀ n, 1 ≤ bc n) (news : Int → scm) (j : Int) :
    j < scan_next bc news j := by
  unfold scan_next
  have := hbc (news j).car
  split_ifs <;> omega

theorem IsHeader.one_le {bc : Int → Int} (hbc : ∀ n, 1 ≤ bc n) {news : Int → scm} {j : Int}
    (h : IsHeader bc news j) : 1 ≤ j := by
  induction h with
  | first => exact le_refl _
  | next j _ ih => have := scan_next_gt bc hbc news j; omega

theorem IsHeader.congr {bc : Int → Int} (hbc : ∀ n, 1 ≤ bc n) {news news2 : Int → scm} {b : Int}
    (hagree : ∀ j, 1 ≤ j → j < b → news2 j = news j) {m : Int} (h : IsHeader bc news m)
    (hm : m ≤ b) : IsHeader bc news2 m := by
  induction h with
  | first => exact IsHeader.first
  | next j hj ih =>
    have hlt := scan_next_gt bc hbc news j
    have h1 := hj.one_le hbc
    have heq : scan_next bc news j = scan_next bc news2 j := by
      unfold scan_next
      rw [hagree j h1 (by omega)]
    rw [heq]
    exact IsHeader.next j (ih (by omega))

theorem gc_copy_g_news_elem (bc : Int → Int) (s : Machine) (old : Int)
    (h : (s.g_cells old).type ≠ TBROKEN_HEART)
    (hv : (s.g_cells old).type = TSTRUCT ∨ (s.g_cells old).type = TVECTOR) (i : Int)
    (h0 : 0 ≤ i) (h1 : i < (s.g_cells old).car) :
    (gc_copy bc s old).1.g_news (s.g_free + 1 + i) = s.g_cells ((s.g_cells old).cdr + i) := by
  simp only [gc_copy, h, if_false, hv, if_true]
  rw [if_neg (by omega), if_pos ⟨by omega, by omega⟩]
  congr 1
  omega

theorem live_car_not_bytes {t : CellType} (h : live_car t) : t ≠ TBYTES := by
  unfold live_car at h
  rintro rfl
  simp at h

/-- The cells -1 to 14 of `example_collected`: the sentinel vector that
`gc_init_news` writes before to-space, then the copies. -/
theorem example_collected_heap :
    (List.range 16).map (fun k : Nat => example_collected.g_cells ((k : Int) - 1)) =
      [ { type := TVECTOR, car := 1000, cdr := 0 },
        { type := TCHAR, car := 0, cdr := 110 },
        { type := TSPECIAL, car := 9, cdr := 0 },
        { type := TSPECIAL, car := 0, cdr := 0 },
        { type := TSPECIAL, car := 0, cdr := 0 },
        { type := TPAIR, car := 10, cdr := 0 },
        { type := TPAIR, car := 11, cdr := 4 },
        { type := TVECTOR, car := 2, cdr := 7 },
        { type := TREF, car := 5, cdr := 0 },
        { type := TCHAR, car := 0, cdr := 97 },
        { type := TCHAR, car := 0, cdr := 110 },
        { type := TSYMBOL, car := 30, cdr := 12 },
        { type := TNUMBER, car := 0, cdr := 42 },
        { type := TBYTES, car := 30, cdr := 7303014 },
        { type := TCHAR, car := 0, cdr := 0 },
        { type := TCHAR, car := 0, cdr := 0 } ] := by
  decide

/-- C11: `gc_copy (old)` on a cell that is not yet forwarded returns
`new`, the previous `g_free`; the to-space cell at `new` has the type and the
first word of the old cell; its second word is that of the old cell, except
for a vector or struct, where it is `new + 1` and the `length` elements follow
at `new + 1 + i`, copied in order from `vector + i`; `g_free` advances by 1 for
an ordinary cell, by `1 + length` for a vector or struct (whose `length` is a
count, `0 <= length`) and by `bytes_cells (length)` for bytes; and the
from-space cell is stamped `TBROKEN_HEART` with first word `new`. -/
theorem gc_copy_unforwarded (bytes_cells : Int → Int) (s : Machine) (old : Int)
    (h : (s.g_cells old).type ≠ TBROKEN_HEART) :
    (gc_copy bytes_cells s old).2 = s.g_free ∧
    ((gc_copy bytes_cells s old).1.g_news s.g_free).type = (s.g_cells old).type ∧
    ((gc_copy bytes_cells s old).1.g_news s.g_free).car = (s.g_cells old).car ∧
    ((s.g_cells old).type ≠ TSTRUCT ∧ (s.g_cells old).type ≠ TVECTOR →
      ((gc_copy bytes_cells s old).1.g_news s.g_free).cdr = (s.g_cells old).cdr) ∧
    ((s.g_cells old).type = TSTRUCT ∨ (s.g_cells old).type = TVECTOR →
      ((gc_copy bytes_cells s old).1.g_news s.g_free).cdr = s.g_free + 1 ∧
      (∀ i, 0 ≤ i → i < (s.g_cells old).car →
        (gc_copy bytes_cells s old).1.g_news (s.g_free + 1 + i)
          = s.g_cells ((s.g_cells old).cdr + i)) ∧
      (0 ≤ (s.g_cells old).car →
        (gc_copy bytes_cells s old).1.g_free = s.g_free + (1 + (s.g_cells old).car))) ∧
    ((s.g_cells old).type = TBYTES →
      (gc_copy bytes_cells s old).1.g_free = s.g_free + bytes_cells (s.g_cells old).car) ∧
    ((s.g_cells old).type ≠ TSTRUCT ∧ (s.g_cells old).type ≠ TVECTOR ∧
        (s.g_cells old).type ≠ TBYTES →
      (gc_copy bytes_cells s old).1.g_free = s.g_free + 1) ∧
    ((gc_copy bytes_cells s old).1.g_cells old).type = TBROKEN_HEART ∧
    ((gc_copy bytes_cells s old).1.g_cells old).car = s.g_free := by
  obtain ⟨n1, n2, n3⟩ := gc_copy_g_news_new bytes_cells s old h
  have hf := gc_copy_g_free bytes_cells s old h
  have hc := gc_copy_g_cells bytes_cells s old h old
  rw [if_pos rfl] at hc
  refine ⟨gc_copy_snd bytes_cells s old h, n1, n2, n3, ?_, ?_, ?_, ?_, ?_⟩
  · intro hv
    refine ⟨?_, fun i h0 h1 => gc_copy_g_news_elem bytes_cells s old h hv i h0 h1, ?_⟩
    · simp only [gc_copy, h, if_false, hv, if_true]
    · intro h0
      rw [hf, if_pos hv, max_eq_right h0]; ring
  · intro hb
    have hnv : ¬ ((s.g_cells old).type = TSTRUCT ∨ (s.g_cells old).type = TVECTOR) := by
      rw [hb]; decide
    rw [hf, if_neg hnv, if_pos hb]
  · rintro ⟨h1, h2, h3⟩
    have hnv : ¬ ((s.g_cells old).type = TSTRUCT ∨ (s.g_cells old).type = TVECTOR) := by
      rintro (h | h) <;> contradiction
    rw [hf, if_neg hnv, if_neg h3]
  · rw [hc]
  · rw [hc]

/-- Witness for C11: the copy of the vector at cell 11 of `example_machine`
(two elements, at cells 12 and 13) goes to cells 14 to 16. -/
theorem gc_copy_unforwarded_witness :
    (example_machine.g_cells 11).type ≠ TBROKEN_HEART ∧
    (gc_copy bytes_cells_24 example_machine 11).2 = 14 ∧
    ((gc_copy bytes_cells_24 example_machine 11).1.g_news 14).cdr = 15 ∧
    (gc_copy bytes_cells_24 example_machine 11).1.g_free = 17 ∧
    ((gc_copy bytes_cells_24 example_machine 11).1.g_cells 11).car = 14 :=
  ⟨by decide,
    (gc_copy_unforwarded bytes_cells_24 example_machine 11 (by decide)).1,
    ((gc_copy_unforwarded bytes_cells_24 example_machine 11 (by decide)).2.2.2.2.1
      (Or.inr rfl)).1,
    ((gc_copy_unforwarded bytes_cells_24 example_machine 11 (by decide)).2.2.2.2.1
      (Or.inr rfl)).2.2 (by decide),
    (gc_copy_unforwarded bytes_cells_24 example_machine 11 (by decide)).2.2.2.2.2.2.2.2⟩

theorem gc_loop_scan_raised (bc : Int → Int) :
    ∀ (fuel : Nat) (s : Machine) (scan : Int) (key : ErrorKey) (x : Irritant),
      gc_loop_scan bc fuel s scan = .raised key x →
      key = ErrorKey.cell_symbol_system_error ∧ x = Irritant.symbol "gc" ∧
      ∃ k, k < fuel ∧
        (gc_loop_passes bc k s scan).2 < (gc_loop_passes bc k s scan).1.g_free ∧
        NTYPE (gc_loop_passes bc k s scan).1 (gc_loop_passes bc k s scan).2 = TBROKEN_HEART := by
  intro fuel
  induction fuel with
  | zero =>
    intro s scan key x h
    simp only [gc_loop_scan] at h
    split_ifs at h
  | succ fuel ih =>
    intro s scan key x h
    simp only [gc_loop_scan] at h
    split_ifs at h with h1 h2
    · cases h
      exact ⟨rfl, rfl, 0, Nat.succ_pos _, h1, h2⟩
    · obtain ⟨a, b, k, hk, c, d⟩ := ih _ _ key x h
      exact ⟨a, b, k + 1, by omega, c, d⟩

/-- C13: in a pass of the scan loop (`scan < g_free`) a to-space cell of type
`TBROKEN_HEART` under the scan pointer raises the system error with the
irritant symbol "gc"; a cell of any other type raises nothing in this pass: the
loop goes on with the body and the next pass.  And whenever the scan loop
raises an error at all, it is this one, raised in the pass, after some number
`k` of passes, in which the cell under the scan pointer is a
`TBROKEN_HEART`. -/
theorem broken_heart_raises (bytes_cells : Int → Int) (fuel : Nat) (s : Machine) (scan : Int)
    (hscan : scan < s.g_free) :
    (NTYPE s scan = TBROKEN_HEART →
      gc_loop_scan bytes_cells (fuel + 1) s scan =
        .raised ErrorKey.cell_symbol_system_error (Irritant.symbol "gc")) ∧
    (NTYPE s scan ≠ TBROKEN_HEART →
      gc_loop_scan bytes_cells (fuel + 1) s scan =
        gc_loop_scan bytes_cells fuel (gc_loop_body bytes_cells s scan).1
          (gc_loop_body bytes_cells s scan).2) ∧
    (∀ key x, gc_loop_scan bytes_cells fuel s scan = .raised key x →
      key = ErrorKey.cell_symbol_system_error ∧ x = Irritant.symbol "gc" ∧
      ∃ k, k < fuel ∧
        (gc_loop_passes bytes_cells k s scan).2 < (gc_loop_passes bytes_cells k s scan).1.g_free ∧
        NTYPE (gc_loop_passes bytes_cells k s scan).1 (gc_loop_passes bytes_cells k s scan).2
          = TBROKEN_HEART) := by
  refine ⟨?_, ?_, gc_loop_scan_raised bytes_cells fuel s scan⟩
  · intro h
    simp only [gc_loop_scan, if_pos hscan, if_pos h]
  · intro h
    simp only [gc_loop_scan, if_pos hscan, if_neg h]

/-- Witness for C13: the scan of `example_broken` from index 1 raises in its
first pass. -/
theorem broken_heart_raises_witness :
    (1 : Int) < example_broken.g_free ∧
    gc_loop_scan bytes_cells_24 1 example_broken 1 =
      .raised ErrorKey.cell_symbol_system_error (Irritant.symbol "gc") :=
  ⟨by decide, (broken_heart_raises bytes_cells_24 0 example_broken 1 (by decide)).1 rfl⟩

theorem SameSizes_refl (s : Machine) : SameSizes s s := ⟨rfl, rfl, rfl, rfl⟩

theorem SameSizes_trans {s t u : Machine} (h1 : SameSizes s t) (h2 : SameSizes t u) :
    SameSizes s u := by
  unfold SameSizes at *
  obtain ⟨a1, a2, a3, a4⟩ := h1
  obtain ⟨b1, b2, b3, b4⟩ := h2
  exact ⟨b1.trans a1, b2.trans a2, b3.trans a3, b4.trans a4⟩

theorem SameGlobals.sizes {s t : Machine} (h : SameGlobals s t) : SameSizes s t := by
  obtain ⟨-, -, -, -, -, -, -, -, a, b, c, d⟩ := h
  exact ⟨a, b, c, d⟩

theorem gc_copy_sizes (bc : Int → Int) (s : Machine) (old : Int) :
    SameSizes s (gc_copy bc s old).1 := (gc_copy_globals bc s old).sizes

theorem gc_scan_car_sizes (bc : Int → Int) (s : Machine) (scan : Int) :
    SameSizes s (gc_scan_car bc s scan) := by
  unfold gc_scan_car
  split_ifs
  · exact gc_copy_sizes bc s _
  · exact SameSizes_refl s

theorem gc_scan_cdr_sizes (bc : Int → Int) (s : Machine) (scan : Int) :
    SameSizes s (gc_scan_cdr bc s scan) := by
  unfold gc_scan_cdr
  split_ifs
  · exact gc_copy_sizes bc s _
  · exact SameSizes_refl s

theorem gc_loop_body_sizes (bc : Int → Int) (s : Machine) (scan : Int) :
    SameSizes s (gc_loop_body bc s scan).1 :=
  SameSizes_trans (gc_scan_car_sizes bc s scan) (gc_scan_cdr_sizes bc _ scan)

theorem gc_loop_scan_sizes (bc : Int → Int) :
    ∀ (fuel : Nat) (s : Machine) (scan : Int) (t : Machine),
      gc_loop_scan bc fuel s scan = .done t → SameSizes s t := by
  intro fuel
  induction fuel with
  | zero =>
    intro s scan t h
    simp only [gc_loop_scan] at h
    split_ifs at h
    cases h
    exact SameSizes_refl s
  | succ fuel ih =>
    intro s scan t h
    simp only [gc_loop_scan] at h
    split_ifs at h with h1 h2
    · exact SameSizes_trans (gc_loop_body_sizes bc s scan) (ih _ _ t h)
    · cases h
      exact SameSizes_refl s

theorem gc_symbols_loop_sizes (bc : Int → Int) :
    ∀ (k : Nat) (i : Int) (s : Machine), SameSizes s (gc_symbols_loop bc k i s) := by
  intro k
  induction k with
  | zero => intro i s; exact SameSizes_refl s
  | succ k ih => intro i s; exact SameSizes_trans (gc_copy_sizes bc s i) (ih (i + 1) _)

theorem gc_stack_loop_sizes (bc : Int → Int) :
    ∀ (k : Nat) (i : Int) (s : Machine), SameSizes s (gc_stack_loop bc k i s) := by
  intro k
  induction k with
  | zero => intro i s; exact SameSizes_refl s
  | succ k ih =>
    intro i s
    have h1 : SameSizes s (set_stack_slot (gc_copy bc s (s.g_stack_array i)).1 i
        (gc_copy bc s (s.g_stack_array i)).2) := gc_copy_sizes bc s _
    exact SameSizes_trans h1 (ih (i + 1) _)

/-- The root phase of `gc_` changes the sizes in `gc_grow` only. -/
theorem gc_roots_sizes (bc : Int → Int) (s : Machine) :
    SameSizes (gc_grow s) (gc_roots bc s) := by
  unfold gc_roots
  have h2 : SameSizes (gc_grow s) (gc_grow (gc_start s)) := by
    unfold SameSizes gc_grow gc_up_arena gc_start gc_init_news
    split_ifs <;> simp
  have h3 : SameSizes (gc_grow (gc_start s)) (gc_root_singletons bc (gc_grow (gc_start s))) :=
    gc_symbols_loop_sizes bc _ _ _
  generalize gc_root_singletons bc (gc_grow (gc_start s)) = s3 at h3
  have h4 : SameSizes s3 (gc_root_symbols bc s3) := gc_copy_sizes bc s3 _
  generalize gc_root_symbols bc s3 = s4 at h4
  have h5 : SameSizes s4 (gc_root_macros bc s4) := gc_copy_sizes bc s4 _
  generalize gc_root_macros bc s4 = s5 at h5
  have h6 : SameSizes s5 (gc_root_ports bc s5) := gc_copy_sizes bc s5 _
  generalize gc_root_ports bc s5 = s6 at h6
  have h7 : SameSizes s6 (gc_root_module bc s6) := gc_copy_sizes bc s6 _
  generalize gc_root_module bc s6 = s7 at h7
  have h8 : SameSizes s7 (gc_root_stack bc s7) := gc_stack_loop_sizes bc _ _ _
  exact SameSizes_trans h2 (SameSizes_trans h3 (SameSizes_trans h4 (SameSizes_trans h5
    (SameSizes_trans h6 (SameSizes_trans h7 h8)))))

/-- The sizes a returning `gc_` leaves: those of `gc_grow`, and the
`JAM_SIZE` of `gc_flip`. -/
theorem gc_sizes (bc : Int → Int) (fuel : Nat) (s t : Machine) (h : gc_ bc fuel s = .done t) :
    t.ARENA_SIZE = (gc_grow s).ARENA_SIZE ∧ t.MAX_ARENA_SIZE = s.MAX_ARENA_SIZE ∧
    t.GC_SAFETY = (gc_grow s).GC_SAFETY ∧
    t.JAM_SIZE = (if t.g_free > (gc_grow s).JAM_SIZE then t.g_free + Int.tdiv t.g_free 2
      else (gc_grow s).JAM_SIZE) := by
  obtain ⟨t0, hscan, rfl⟩ := gc_done bc fuel s t h
  obtain ⟨a1, a2, a3, a4⟩ :=
    SameSizes_trans (gc_roots_sizes bc s) (gc_loop_scan_sizes bc fuel _ 1 t0 hscan)
  have hmax : (gc_grow s).MAX_ARENA_SIZE = s.MAX_ARENA_SIZE := by
    unfold gc_grow gc_up_arena; split_ifs <;> rfl
  refine ⟨a1, a2.trans hmax, a4, ?_⟩
  show (if t0.g_free > t0.JAM_SIZE then t0.g_free + Int.tdiv t0.g_free 2 else t0.JAM_SIZE) = _
  rw [a3]
  rfl

theorem example_growing_done :
    gc_ bytes_cells_24 20 example_growing = .done example_grown := rfl

/-- C14, counterexample: the collection of `example_growing` returns with
`g_free = 15`, so `g_free + GC_SAFETY <= ARENA_SIZE / 2` holds afterwards, with
the sizes of before (15 + 10 <= 50) as with those of after (15 + 20 <= 100);
yet `ARENA_SIZE` went from 100 to 200, `JAM_SIZE` from 20 to 40 and
`GC_SAFETY` from 10 to 20. -/
theorem gc_grows_half_empty :
    gc_ bytes_cells_24 20 example_growing = .done example_grown ∧
    example_grown.g_free + example_grown.GC_SAFETY ≤ example_grown.ARENA_SIZE / 2 ∧
    example_grown.g_free + example_growing.GC_SAFETY ≤ example_growing.ARENA_SIZE / 2 ∧
    example_growing.ARENA_SIZE = 100 ∧ example_grown.ARENA_SIZE = 200 ∧
    example_growing.JAM_SIZE = 20 ∧ example_grown.JAM_SIZE = 40 ∧
    example_growing.GC_SAFETY = 10 ∧ example_grown.GC_SAFETY = 20 :=
  ⟨rfl, by decide, by decide, rfl, rfl, rfl, rfl, rfl, rfl⟩

/-- C14, amended: whether a collection grows the arena is decided when `gc_`
starts, by `ARENA_SIZE < MAX_ARENA_SIZE` alone, whatever the occupancy.  If
it holds, `ARENA_SIZE` and `GC_SAFETY` after `gc_` are those `gc_up_arena`
makes of the values before; if not, they are the same after `gc_` as before.
`JAM_SIZE` is in both cases the value this step leaves, unless the `g_free` of
the survivors exceeds it: then `gc_flip` sets it to `g_free + g_free / 2`.
`MAX_ARENA_SIZE` never changes. -/
theorem gc_grows_at_start (bytes_cells : Int → Int) (fuel : Nat) (s t : Machine)
    (hrun : gc_ bytes_cells fuel s = .done t) :
    (s.ARENA_SIZE < s.MAX_ARENA_SIZE →
      t.ARENA_SIZE = (gc_up_arena s).ARENA_SIZE ∧ t.GC_SAFETY = (gc_up_arena s).GC_SAFETY ∧
      t.JAM_SIZE = (if t.g_free > (gc_up_arena s).JAM_SIZE then t.g_free + Int.tdiv t.g_free 2
        else (gc_up_arena s).JAM_SIZE)) ∧
    (¬ s.ARENA_SIZE < s.MAX_ARENA_SIZE →
      t.ARENA_SIZE = s.ARENA_SIZE ∧ t.GC_SAFETY = s.GC_SAFETY ∧
      t.JAM_SIZE = (if t.g_free > s.JAM_SIZE then t.g_free + Int.tdiv t.g_free 2
        else s.JAM_SIZE)) ∧
    t.MAX_ARENA_SIZE = s.MAX_ARENA_SIZE := by
  obtain ⟨a1, a2, a3, a4⟩ := gc_sizes bytes_cells fuel s t hrun
  refine ⟨?_, ?_, a2⟩
  · intro hlt
    have hg : gc_grow s = gc_up_arena s := by unfold gc_grow; rw [if_pos hlt]
    rw [hg] at a1 a3 a4
    exact ⟨a1, a3, a4⟩
  · intro hlt
    have hg : gc_grow s = s := by unfold gc_grow; rw [if_neg hlt]
    rw [hg] at a1 a3 a4
    exact ⟨a1, a3, a4⟩

/-- Witness for C14, amended: the collection of `example_growing`, which
doubles the sizes. -/
theorem gc_grows_at_start_witness :
    gc_ bytes_cells_24 20 example_growing = .done example_grown ∧
    example_grown.ARENA_SIZE = (gc_up_arena example_growing).ARENA_SIZE ∧
    example_grown.MAX_ARENA_SIZE = example_growing.MAX_ARENA_SIZE :=
  ⟨example_growing_done,
    ((gc_grows_at_start bytes_cells_24 20 example_growing example_grown
      example_growing_done).1 (by decide)).1,
    (gc_grows_at_start bytes_cells_24 20 example_growing example_grown
      example_growing_done).2.2⟩

theorem shiftRight_int (x : Int) (n : Nat) : x >>> (n : Int) = x / 2 ^ n := by
  have h : x >>> (n : Int) = Int.shiftRight x n := by
    cases x with
    | ofNat m => exact Int.shiftRight_coe_nat m n
    | negSucc m => exact Int.shiftRight_negSucc m n
  rw [h]
  have := Int.shiftRight_eq_div_pow x n
  simpa using this

theorem shift_one (x : Int) : x >>> 1 = x / 2 := by
  have := shiftRight_int x 1
  simpa using this

theorem shift_two (x : Int) : x >>> 2 = x / 4 := by
  have := shiftRight_int x 2
  norm_num at this
  exact this

/-- C15: `gc_up_arena` doubles `ARENA_SIZE`, `JAM_SIZE` and `GC_SAFETY`
together exactly when `floor (ARENA_SIZE / 2) < floor (MAX_ARENA_SIZE / 4)`
(`/` on `Int` rounds down); otherwise it sets `ARENA_SIZE` to
`MAX_ARENA_SIZE - JAM_SIZE` and leaves `JAM_SIZE` and `GC_SAFETY` as they are.
`MAX_ARENA_SIZE` is never changed. -/
theorem gc_up_arena_policy (s : Machine) :
    (gc_up_arena s).ARENA_SIZE =
      (if s.ARENA_SIZE / 2 < s.MAX_ARENA_SIZE / 4 then 2 * s.ARENA_SIZE
        else s.MAX_ARENA_SIZE - s.JAM_SIZE) ∧
    (gc_up_arena s).JAM_SIZE =
      (if s.ARENA_SIZE / 2 < s.MAX_ARENA_SIZE / 4 then 2 * s.JAM_SIZE else s.JAM_SIZE) ∧
    (gc_up_arena s).GC_SAFETY =
      (if s.ARENA_SIZE / 2 < s.MAX_ARENA_SIZE / 4 then 2 * s.GC_SAFETY else s.GC_SAFETY) ∧
    (gc_up_arena s).MAX_ARENA_SIZE = s.MAX_ARENA_SIZE := by
  unfold gc_up_arena
  rw [shift_one, shift_two]
  split_ifs <;> simp [mul_comm]

theorem gc_up_arena_le (s : Machine) (hjam : 0 ≤ s.JAM_SIZE) :
    (gc_up_arena s).ARENA_SIZE ≤ s.MAX_ARENA_SIZE := by
  unfold gc_up_arena
  rw [shift_one, shift_two]
  split_ifs with h
  · show s.ARENA_SIZE * 2 ≤ _
    omega
  · show s.MAX_ARENA_SIZE - s.JAM_SIZE ≤ _
    omega

theorem gc_up_arena_jam (s : Machine) (hjam : 0 ≤ s.JAM_SIZE) :
    0 ≤ (gc_up_arena s).JAM_SIZE := by
  unfold gc_up_arena
  split_ifs with h
  · show 0 ≤ s.JAM_SIZE * 2
    omega
  · exact hjam

/-- A returning collection keeps the cap. -/
theorem gc_capped (bc : Int → Int) (fuel : Nat) (s t : Machine) (h : gc_ bc fuel s = .done t)
    (hjam : 0 ≤ s.JAM_SIZE) (hle : s.ARENA_SIZE ≤ s.MAX_ARENA_SIZE) :
    0 ≤ t.JAM_SIZE ∧ t.ARENA_SIZE ≤ t.MAX_ARENA_SIZE ∧ t.MAX_ARENA_SIZE = s.MAX_ARENA_SIZE := by
  obtain ⟨a1, a2, -, a4⟩ := gc_sizes bc fuel s t h
  have hg : 0 ≤ (gc_grow s).JAM_SIZE ∧ (gc_grow s).ARENA_SIZE ≤ s.MAX_ARENA_SIZE := by
    unfold gc_grow
    split_ifs with hlt
    · exact ⟨gc_up_arena_jam s hjam, gc_up_arena_le s hjam⟩
    · exact ⟨hjam, hle⟩
  refine ⟨?_, by rw [a1, a2]; exact hg.2, a2⟩
  rw [a4]
  split_ifs with h1
  · have h2 : 0 ≤ t.g_free := by omega
    have := Int.tdiv_nonneg h2 (by norm_num : (0 : Int) ≤ 2)
    omega
  · exact hg.1

/-- C16: `MAX_ARENA_SIZE` is a hard cap.  From a state with `0 <= JAM_SIZE`
and `ARENA_SIZE <= MAX_ARENA_SIZE` (the claim asks for more: `0 <= ARENA_SIZE <
MAX_ARENA_SIZE`), `gc_up_arena` leaves `ARENA_SIZE <= MAX_ARENA_SIZE` with
`MAX_ARENA_SIZE` unchanged, and after any number of collections, each of which
returns, `ARENA_SIZE <= MAX_ARENA_SIZE` holds, for the `MAX_ARENA_SIZE` of the
start. -/
theorem arena_capped (bytes_cells : Int → Int) (s : Machine) (hjam : 0 ≤ s.JAM_SIZE)
    (hle : s.ARENA_SIZE ≤ s.MAX_ARENA_SIZE) :
    (gc_up_arena s).ARENA_SIZE ≤ s.MAX_ARENA_SIZE ∧
    (gc_up_arena s).MAX_ARENA_SIZE = s.MAX_ARENA_SIZE ∧
    ∀ t, Collections bytes_cells s t →
      t.ARENA_SIZE ≤ t.MAX_ARENA_SIZE ∧ t.MAX_ARENA_SIZE = s.MAX_ARENA_SIZE := by
  refine ⟨gc_up_arena_le s hjam, by unfold gc_up_arena; split_ifs <;> rfl, ?_⟩
  intro t ht
  have key : 0 ≤ t.JAM_SIZE ∧ t.ARENA_SIZE ≤ t.MAX_ARENA_SIZE ∧
      t.MAX_ARENA_SIZE = s.MAX_ARENA_SIZE := by
    induction ht with
    | start => exact ⟨hjam, hle, rfl⟩
    | collect u v t fuel _ hsame hrun ih =>
      obtain ⟨i1, i2, i3⟩ := ih
      obtain ⟨e1, e2, e3, -⟩ := hsame
      obtain ⟨c1, c2, c3⟩ := gc_capped bytes_cells fuel v t hrun (by rw [e3]; exact i1)
        (by rw [e1, e2]; exact i2)
      exact ⟨c1, c2, by rw [c3, e2, i3]⟩
  exact ⟨key.2.1, key.2.2⟩

theorem example_collections : Collections bytes_cells_24 example_growing example_grown :=
  Collections.collect example_growing example_growing example_growing example_grown 20
    (Collections.start example_growing) (SameSizes_refl example_growing) example_growing_done

/-- Witness for C16: `example_growing` (sizes 100 < 1000, `JAM_SIZE` 20) and
its collection. -/
theorem arena_capped_witness :
    0 ≤ example_growing.JAM_SIZE ∧ example_growing.ARENA_SIZE ≤ example_growing.MAX_ARENA_SIZE ∧
    (gc_up_arena example_growing).ARENA_SIZE ≤ example_growing.MAX_ARENA_SIZE ∧
    example_grown.ARENA_SIZE ≤ example_grown.MAX_ARENA_SIZE :=
  ⟨by decide, by decide,
    (arena_capped bytes_cells_24 example_growing (by decide) (by decide)).1,
    ((arena_capped bytes_cells_24 example_growing (by decide) (by decide)).2.2 example_grown
      example_collections).1⟩

/-! ### Chained comparisons -/

theorem less_p_loop_numbers (g_cells : Int → scm) :
    ∀ (x : List Int) (n : Int), (∀ a ∈ x, (g_cells a).type = TNUMBER) →
      less_p_loop g_cells n x =
        .ok (if List.Chain (fun u v => u < v) n (x.map (VALUE g_cells)) then cell_t else cell_f) := by
  intro x
  induction x with
  | nil => intro n _; simp [less_p_loop]
  | cons a x ih =>
    intro n hx
    have ha : (g_cells a).type = TNUMBER := hx a (by simp)
    have hx2 : ∀ b ∈ x, (g_cells b).type = TNUMBER := fun b hb => hx b (by simp [hb])
    rw [less_p_loop, assert_number_ok ha]
    show (if VALUE g_cells a ≤ n then Except.ok cell_f
      else less_p_loop g_cells (VALUE g_cells a) x) = _
    rw [ih _ hx2, List.map_cons]
    by_cases h : VALUE g_cells a ≤ n
    · rw [if_pos h, if_neg]
      rw [List.chain_cons]
      intro h2; omega
    · rw [if_neg h]
      simp only [List.chain_cons]
      have : n < VALUE g_cells a := by omega
      simp [this]

theorem greater_p_loop_numbers (g_cells : Int → scm) :
    ∀ (x : List Int) (n : Int), (∀ a ∈ x, (g_cells a).type = TNUMBER) →
      greater_p_loop g_cells n x =
        .ok (if List.Chain (fun u v => u > v) n (x.map (VALUE g_cells)) then cell_t else cell_f) := by
  intro x
  induction x with
  | nil => intro n _; simp [greater_p_loop]
  | cons a x ih =>
    intro n hx
    have ha : (g_cells a).type = TNUMBER := hx a (by simp)
    have hx2 : ∀ b ∈ x, (g_cells b).type = TNUMBER := fun b hb => hx b (by simp [hb])
    rw [greater_p_loop, assert_number_ok ha]
    show (if VALUE g_cells a ≥ n then Except.ok cell_f
      else greater_p_loop g_cells (VALUE g_cells a) x) = _
    rw [ih _ hx2, List.map_cons]
    by_cases h : VALUE g_cells a ≥ n
    · rw [if_pos h, if_neg]
      rw [List.chain_cons]
      intro h2; omega
    · rw [if_neg h]
      simp only [List.chain_cons]
      have : n > VALUE g_cells a := by omega
      simp [this]

theorem is_p_loop_eq (g_cells : Int → scm) (n : Int) :
    ∀ x : List Int,
      is_p_loop g_cells n x = (if ∀ b ∈ x, VALUE g_cells b = n then cell_t else cell_f) := by
  intro x
  induction x with
  | nil => simp [is_p_loop]
  | cons a x ih =>
    rw [is_p_loop, ih]
    by_cases h : VALUE g_cells a = n
    · simp [h]
    · simp [h]

/-- C20: on a list of number cells, `less_p` returns `#t` if the values are
strictly increasing from left to right and `#f` if not, `greater_p` returns
`#t` if they are strictly decreasing and `#f` if not, and `is_p` returns `#t`
if every value equals the first and `#f` if not; each returns `#t` for the
empty list and for a list of one element; `#t` and `#f` are different
cells. -/
theorem chained_comparisons (g_cells : Int → scm) (x : List Int)
    (hx : ∀ a ∈ x, (g_cells a).type = TNUMBER) :
    less_p g_cells x =
      .ok (if List.Chain' (fun u v => u < v) (x.map (VALUE g_cells)) then cell_t else cell_f) ∧
    greater_p g_cells x =
      .ok (if List.Chain' (fun u v => u > v) (x.map (VALUE g_cells)) then cell_t else cell_f) ∧
    is_p g_cells x =
      .ok (if ∀ b ∈ x, ∀ a ∈ x.head?, VALUE g_cells b = VALUE g_cells a then cell_t
        else cell_f) ∧
    (x.length ≤ 1 → less_p g_cells x = .ok cell_t ∧ greater_p g_cells x = .ok cell_t ∧
      is_p g_cells x = .ok cell_t) ∧
    cell_t ≠ cell_f := by
  have key : less_p g_cells x =
      .ok (if List.Chain' (fun u v => u < v) (x.map (VALUE g_cells)) then cell_t else cell_f) ∧
    greater_p g_cells x =
      .ok (if List.Chain' (fun u v => u > v) (x.map (VALUE g_cells)) then cell_t else cell_f) ∧
    is_p g_cells x =
      .ok (if ∀ b ∈ x, ∀ a ∈ x.head?, VALUE g_cells b = VALUE g_cells a then cell_t
        else cell_f) := by
    cases x with
    | nil => simp [less_p, greater_p, is_p]
    | cons a x =>
      have ha : (g_cells a).type = TNUMBER := hx a (by simp)
      have hx2 : ∀ b ∈ x, (g_cells b).type = TNUMBER := fun b hb => hx b (by simp [hb])
      refine ⟨?_, ?_, ?_⟩
      · rw [less_p, assert_number_ok ha]
        show less_p_loop g_cells (VALUE g_cells a) x = _
        rw [less_p_loop_numbers g_cells x _ hx2]
        rfl
      · rw [greater_p, assert_number_ok ha]
        show greater_p_loop g_cells (VALUE g_cells a) x = _
        rw [greater_p_loop_numbers g_cells x _ hx2]
        rfl
      · rw [is_p, assert_number_ok ha]
        show Except.ok (is_p_loop g_cells (VALUE g_cells a) x) = _
        rw [is_p_loop_eq]
        simp
  refine ⟨key.1, key.2.1, key.2.2, ?_, by decide⟩
  intro hlen
  obtain ⟨k1, k2, k3⟩ := key
  rw [k1, k2, k3]
  match x, hlen with
  | [], _ => simp
  | [a], _ => simp
  | a :: b :: x, h => simp at h

/-- Witness for C20: the numbers 1, 2, 3 (cells 11, 12, 13 of
`number_heap`) are increasing, not decreasing and not all equal. -/
theorem chained_comparisons_witness :
    (∀ a ∈ [11, 12, 13], (number_heap a).type = TNUMBER) ∧
    less_p number_heap [11, 12, 13] = .ok cell_t ∧
    greater_p number_heap [11, 12, 13] = .ok cell_f ∧
    is_p number_heap [11, 12, 13] = .ok cell_f :=
  ⟨by decide,
    (chained_comparisons number_heap [11, 12, 13] (by decide)).1.trans
      (congrArg Except.ok (if_pos (by simp [VALUE, number_heap]))),
    (chained_comparisons number_heap [11, 12, 13] (by decide)).2.1.trans
      (congrArg Except.ok (if_neg (by simp [VALUE, number_heap]))),
    (chained_comparisons number_heap [11, 12, 13] (by decide)).2.2.1.trans
      (congrArg Except.ok (if_neg (by simp [VALUE, number_heap])))⟩

/-! ### Descriptor input -/

theorem fdgetc_result_char (char_signed : Bool) (b : Fin 256) :
    fdgetc_result (char_to_int char_signed b) = (b.val : Int) := by
  have hb := b.isLt
  unfold fdgetc_result char_to_int
  split_ifs <;> omega

theorem ungetc_init_of_used (st : Posix) (h : st.__ungetc_buf RLIMIT_NOFILE ≠ 0) :
    __ungetc_init st = st := by
  unfold __ungetc_init
  rw [if_neg h]

theorem ungetc_init_used (st : Posix) : (__ungetc_init st).__ungetc_buf RLIMIT_NOFILE ≠ 0 := by
  unfold __ungetc_init
  split_ifs with h
  · simp [RLIMIT_NOFILE]
  · exact h

theorem ungetc_init_idem (st : Posix) : __ungetc_init (__ungetc_init st) = __ungetc_init st :=
  ungetc_init_of_used _ (ungetc_init_used st)

theorem ungetc_init_input (st : Posix) : (__ungetc_init st).input = st.input := by
  unfold __ungetc_init
  split_ifs <;> rfl

theorem ungetc_init_stdin (st : Posix) : (__ungetc_init st).__stdin = st.__stdin := by
  unfold __ungetc_init
  split_ifs <;> rfl

/-- The three ways through `fdgetc`. -/
theorem fdgetc_cases (char_signed : Bool) (st : Posix) (fd : Int) :
    (0 ≤ (__ungetc_init st).__ungetc_buf fd →
      fdgetc char_signed st fd = ((__ungetc_init st).__ungetc_buf fd,
        { __ungetc_init st with
          __ungetc_buf := fun j => if j = fd then -1 else (__ungetc_init st).__ungetc_buf j })) ∧
    ((__ungetc_init st).__ungetc_buf fd < 0 → st.input fd = [] →
      fdgetc char_signed st fd = (-1, __ungetc_init st)) ∧
    (∀ b rest, (__ungetc_init st).__ungetc_buf fd < 0 → st.input fd = b :: rest →
      fdgetc char_signed st fd = ((b.val : Int),
        { __ungetc_init st with
          input := fun j => if j = fd then rest else (__ungetc_init st).input j })) := by
  refine ⟨?_, ?_, ?_⟩
  · intro h
    unfold fdgetc
    rw [if_pos h]
    have : fdgetc_result ((__ungetc_init st).__ungetc_buf fd) = (__ungetc_init st).__ungetc_buf fd := by
      unfold fdgetc_result; rw [if_neg (by omega)]
    rw [this]
  · intro h hin
    unfold fdgetc
    rw [if_neg (by omega)]
    unfold read
    rw [ungetc_init_input, hin]
  · intro b rest h hin
    unfold fdgetc
    rw [if_neg (by omega)]
    unfold read
    rw [ungetc_init_input, hin]
    simp only [fdgetc_result_char]

/-- `fdgetc` keeps every slot empty or holding a byte. -/
theorem SlotsValid_fdgetc (char_signed : Bool) (st : Posix) (fd : Int) (hne : fd ≠ RLIMIT_NOFILE)
    (h : SlotsValid st) : SlotsValid (fdgetc char_signed st fd).2 := by
  obtain ⟨c1, c2, c3⟩ := fdgetc_cases char_signed st fd
  have hu := ungetc_init_used st
  intro fd2 h0 h1
  by_cases hv : 0 ≤ (__ungetc_init st).__ungetc_buf fd
  · rw [c1 hv]
    have hused : ({ __ungetc_init st with __ungetc_buf := fun j =>
        if j = fd then -1 else (__ungetc_init st).__ungetc_buf j } : Posix).__ungetc_buf
          RLIMIT_NOFILE ≠ 0 := by
      show (if RLIMIT_NOFILE = fd then -1 else _) ≠ 0
      rw [if_neg (fun e => hne e.symm)]; exact hu
    rw [ungetc_init_of_used _ hused]
    show -1 ≤ (if fd2 = fd then -1 else _) ∧ (if fd2 = fd then -1 else _) ≤ 255
    split_ifs
    · constructor <;> norm_num
    · exact h fd2 h0 h1
  · have hneg : (__ungetc_init st).__ungetc_buf fd < 0 := by omega
    cases hin : st.input fd with
    | nil =>
      rw [c2 hneg hin, ungetc_init_idem]
      exact h fd2 h0 h1
    | cons b rest =>
      rw [c3 b rest hneg hin]
      have hused : ({ __ungetc_init st with input := fun j =>
          if j = fd then rest else (__ungetc_init st).input j } : Posix).__ungetc_buf
            RLIMIT_NOFILE ≠ 0 := hu
      rw [ungetc_init_of_used _ hused]
      exact h fd2 h0 h1

/-- `fdungetc` of -1 or of a byte keeps every slot empty or holding a
byte. -/
theorem SlotsValid_fdungetc (st u : Posix) (c fd : Int) (hne : fd ≠ RLIMIT_NOFILE)
    (hc0 : -1 ≤ c) (hc1 : c ≤ 255) (h : SlotsValid st)
    (hret : fdungetc st c fd = .returned c u) : SlotsValid u := by
  have hu := ungetc_init_used st
  unfold fdungetc at hret
  split_ifs at hret with h1 h2
  · cases hret
    intro fd2 a b
    rw [ungetc_init_idem]
    exact h fd2 a b
  · cases hret
    have hused : ({ __ungetc_init st with __ungetc_buf := fun j =>
        if j = fd then c else (__ungetc_init st).__ungetc_buf j } : Posix).__ungetc_buf
          RLIMIT_NOFILE ≠ 0 := by
      show (if RLIMIT_NOFILE = fd then c else _) ≠ 0
      rw [if_neg (fun e => hne e.symm)]; exact hu
    intro fd2 a b
    rw [ungetc_init_of_used _ hused]
    show -1 ≤ (if fd2 = fd then c else _) ∧ (if fd2 = fd then c else _) ≤ 255
    split_ifs
    · exact ⟨hc0, hc1⟩
    · exact h fd2 a b

/-- C19: characters are opaque bytes.  When every slot is empty or holds a
byte, as it does while `fdungetc` is only given values that `fdgetc`
returned, `fdgetc (fd)` returns -1 exactly when the slot of `fd` is empty and
`read` delivers no byte; every other result lies in 0 .. 255: a byte read,
also one from 128 on and for a signed as for an unsigned `char`, is returned
as its value `b`, and a pending value is returned as it is.  `fdgetc` leaves
every slot empty or holding a byte, and so does `fdungetc` of -1 or of a
value in 0 .. 255 after it. -/
theorem fdgetc_bytes (char_signed : Bool) (st : Posix) (fd : Int) (hfd0 : 0 ≤ fd)
    (hfd1 : fd < RLIMIT_NOFILE) (hvalid : SlotsValid st) :
    ((fdgetc char_signed st fd).1 = -1 ↔
      (__ungetc_init st).__ungetc_buf fd = -1 ∧ st.input fd = []) ∧
    ((fdgetc char_signed st fd).1 ≠ -1 →
      0 ≤ (fdgetc char_signed st fd).1 ∧ (fdgetc char_signed st fd).1 ≤ 255) ∧
    (∀ b rest, (__ungetc_init st).__ungetc_buf fd = -1 → st.input fd = b :: rest →
      (fdgetc char_signed st fd).1 = (b.val : Int) ∧
      (fdgetc char_signed st fd).2.input fd = rest) ∧
    (0 ≤ (__ungetc_init st).__ungetc_buf fd →
      (fdgetc char_signed st fd).1 = (__ungetc_init st).__ungetc_buf fd ∧
      (fdgetc char_signed st fd).2.input = st.input) ∧
    SlotsValid (fdgetc char_signed st fd).2 ∧
    (∀ c fd2 u, (c = -1 ∨ (0 ≤ c ∧ c ≤ 255)) → 0 ≤ fd2 → fd2 < RLIMIT_NOFILE →
      fdungetc (fdgetc char_signed st fd).2 c fd2 = .returned c u → SlotsValid u) := by
  have hne : fd ≠ RLIMIT_NOFILE := by omega
  obtain ⟨c1, c2, c3⟩ := fdgetc_cases char_signed st fd
  obtain ⟨v0, v1⟩ := hvalid fd hfd0 hfd1
  have hkeep := SlotsValid_fdgetc char_signed st fd hne hvalid
  refine ⟨?_, ?_, ?_, ?_, hkeep, ?_⟩
  · by_cases hv : 0 ≤ (__ungetc_init st).__ungetc_buf fd
    · rw [c1 hv]
      constructor
      · intro h; simp only at h; omega
      · intro h; omega
    · have hneg : (__ungetc_init st).__ungetc_buf fd < 0 := by omega
      cases hin : st.input fd with
      | nil => rw [c2 hneg hin]; simp; omega
      | cons b rest =>
        rw [c3 b rest hneg hin]
        have hb := b.isLt
        constructor
        · intro h; simp only at h; omega
        · intro h; simp at h
  · intro hnot
    by_cases hv : 0 ≤ (__ungetc_init st).__ungetc_buf fd
    · rw [c1 hv]; exact ⟨hv, v1⟩
    · have hneg : (__ungetc_init st).__ungetc_buf fd < 0 := by omega
      cases hin : st.input fd with
      | nil => rw [c2 hneg hin] at hnot; exact absurd rfl hnot
      | cons b rest =>
        rw [c3 b rest hneg hin]
        have hb := b.isLt
        simp only
        omega
  · intro b rest hempty hin
    rw [c3 b rest (by omega) hin]
    simp
  · intro hv
    rw [c1 hv]
    exact ⟨rfl, ungetc_init_input st⟩
  · intro c fd2 u hc h0 h1 hret
    exact SlotsValid_fdungetc _ u c fd2 (by omega) (by omega) (by omega) hkeep hret

theorem example_posix_valid : SlotsValid example_posix := by
  intro fd _ _
  have : __ungetc_init example_posix = example_posix :=
    ungetc_init_of_used _ (by decide)
  rw [this]
  show (-1 : Int) ≤ -1 ∧ (-1 : Int) ≤ 255
  exact ⟨by decide, by decide⟩

/-- Witness for C19: the first byte of `example_posix`, 233, is read as
233 with a signed `char`. -/
theorem fdgetc_bytes_witness :
    (0 : Int) ≤ 0 ∧ (0 : Int) < RLIMIT_NOFILE ∧ SlotsValid example_posix ∧
    (fdgetc true example_posix 0).1 = 233 ∧ (fdgetc true example_posix 0).2.input 0 = [104, 10] :=
  ⟨by decide, by decide, example_posix_valid,
    (fdgetc_bytes true example_posix 0 (by decide) (by decide) example_posix_valid).2.2.1
      233 [104, 10] (by decide) (by decide)⟩

/-! ### Ports -/

theorem wrap_of_range (w : Nat) (y : Int) (h0 : -(2 ^ w) ≤ 2 * y) (h1 : 2 * y < 2 ^ w) :
    wrap w y = y := by
  have hcast : (((2 ^ w : Nat) : Int)) = (2 : Int) ^ w := by push_cast; rfl
  have hpos : (0 : Int) < 2 ^ w := by positivity
  unfold wrap
  rcases le_or_lt 0 y with hy | hy
  · have hx : y % ((2 ^ w : Nat) : Int) = y := Int.emod_eq_of_lt hy (by rw [hcast]; omega)
    rw [Int.bmod_pos _ _ (by rw [hx, hcast]; omega), hx]
  · have hx : y % ((2 ^ w : Nat) : Int) = y + 2 ^ w := by
      rw [hcast, ← Int.add_emod_self]
      exact Int.emod_eq_of_lt (by omega) (by omega)
    rw [Int.bmod_neg _ _ (by rw [hx, hcast]; omega), hx, hcast]
    ring

theorem wrap_range (w : Nat) (y : Int) (h : wrap w y = y) :
    -(2 ^ w) ≤ 2 * y ∧ 2 * y < 2 ^ w := by
  have hcast : (((2 ^ w : Nat) : Int)) = (2 : Int) ^ w := by push_cast; rfl
  have hpos : (0 : Int) < ((2 ^ w : Nat) : Int) := by positivity
  have h1 := @Int.le_bmod y (2 ^ w) (by positivity)
  have h2 := @Int.bmod_lt y (2 ^ w) (by positivity)
  unfold wrap at h
  rw [h, hcast] at h1 h2
  constructor <;> omega

/-- The loop of `modulo` for a positive divisor: it ends, with the least
value that is not negative. -/
theorem modulo_loop_pos (w : Nat) (b : Int) (hb : 0 < b) (hbw : wrap w b = b) :
    ∀ (fuel : Nat) (x : Int), wrap w x = x → (-x).toNat ≤ fuel →
      modulo_loop w b fuel x = some (if x < 0 then x % b else x) := by
  obtain ⟨b0, b1⟩ := wrap_range w b hbw
  intro fuel
  induction fuel with
  | zero =>
    intro x _ hf
    have : ¬ x < 0 := by omega
    simp [modulo_loop, this]
  | succ fuel ih =>
    intro x hx hf
    obtain ⟨x0, x1⟩ := wrap_range w x hx
    unfold modulo_loop
    by_cases hneg : x < 0
    · rw [if_pos hneg, if_pos hneg]
      have hw : wrap w (x + b) = x + b := wrap_of_range w _ (by omega) (by omega)
      rw [hw, ih (x + b) hw (by omega)]
      congr 1
      by_cases h2 : x + b < 0
      · rw [if_pos h2, Int.add_emod_self]
      · rw [if_neg h2]
        rw [← Int.add_emod_self]
        exact (Int.emod_eq_of_lt (by omega) (by omega)).symm
    · rw [if_neg hneg, if_neg hneg]

/-- C21: for number cells `a` and `b` whose values are `w`-bit integers, with
`value (b) > 0`, `modulo (a, b)` returns, once it is given as many passes as
its loop needs (at most `-value (a)`), a `TNUMBER` cell whose value `r` is
`value (a)` reduced into `0 <= r < value (b)`: `value (b)` divides
`value (a) - r`, for a negative as for a non-negative `value (a)`. -/
theorem modulo_positive (w : Nat) (g_cells : Int → scm) (a b : Int)
    (ha : (g_cells a).type = TNUMBER) (hb : (g_cells b).type = TNUMBER)
    (haw : wrap w (VALUE g_cells a) = VALUE g_cells a)
    (hbw : wrap w (VALUE g_cells b) = VALUE g_cells b) (hpos : 0 < VALUE g_cells b) :
    (∀ fuel, (-VALUE g_cells a).toNat ≤ fuel →
      modulo w g_cells fuel a b = some (.ok (MAKE_NUMBER (VALUE g_cells a % VALUE g_cells b)))) ∧
    (MAKE_NUMBER (VALUE g_cells a % VALUE g_cells b)).type = TNUMBER ∧
    (MAKE_NUMBER (VALUE g_cells a % VALUE g_cells b)).cdr =
      VALUE g_cells a % VALUE g_cells b ∧
    0 ≤ VALUE g_cells a % VALUE g_cells b ∧
    VALUE g_cells a % VALUE g_cells b < VALUE g_cells b ∧
    VALUE g_cells b ∣ VALUE g_cells a - VALUE g_cells a % VALUE g_cells b := by
  refine ⟨?_, rfl, rfl, Int.emod_nonneg _ (by omega), Int.emod_lt_of_pos _ hpos,
    Int.dvd_sub_of_emod_eq rfl⟩
  intro fuel hf
  unfold modulo
  rw [assert_number_ok ha, assert_number_ok hb]
  simp only
  rw [modulo_loop_pos w _ hpos hbw fuel _ haw hf]
  simp only
  by_cases hneg : VALUE g_cells a < 0
  · rw [if_pos hneg]
    by_cases h0 : VALUE g_cells a % VALUE g_cells b = 0
    · rw [if_pos h0, h0]
    · rw [if_neg h0, if_neg (by omega)]
      have h1 := Int.emod_nonneg (VALUE g_cells a) (show VALUE g_cells b ≠ 0 by omega)
      have h2 := Int.emod_lt_of_pos (VALUE g_cells a) hpos
      rw [Int.tmod_eq_emod h1 (by omega), Int.emod_emod_of_dvd _ (dvd_refl _)]
  · rw [if_neg hneg]
    by_cases h0 : VALUE g_cells a = 0
    · rw [if_pos h0, h0]; simp
    · rw [if_neg h0, if_neg (by omega), Int.tmod_eq_emod (by omega) (by omega)]

/-- Witness for C21: `(modulo -7 3)` is 2. -/
theorem modulo_positive_witness :
    (signed_heap 93).type = TNUMBER ∧ (signed_heap 103).type = TNUMBER ∧
    wrap 64 (VALUE signed_heap 93) = VALUE signed_heap 93 ∧
    wrap 64 (VALUE signed_heap 103) = VALUE signed_heap 103 ∧
    0 < VALUE signed_heap 103 ∧ VALUE signed_heap 93 = -7 ∧ VALUE signed_heap 103 = 3 ∧
    modulo 64 signed_heap 7 93 103 = some (.ok (MAKE_NUMBER 2)) :=
  ⟨rfl, rfl, by decide, by decide, by decide, rfl, rfl,
    (modulo_positive 64 signed_heap 93 103 rfl rfl (by decide) (by decide) (by decide)).1 7
      (by decide)⟩

/-- The loop of `modulo` never ends for a negative value and the divisor
0. -/
theorem modulo_loop_zero (w : Nat) (x : Int) (hx : wrap w x = x) (hneg : x < 0) :
    ∀ fuel : Nat, modulo_loop w 0 fuel x = none := by
  intro fuel
  induction fuel with
  | zero => simp [modulo_loop, hneg]
  | succ fuel ih =>
    unfold modulo_loop
    rw [if_pos hneg, add_zero, hx]
    exact ih

/-- `modulo` of a negative number and 0 returns within no number of
passes. -/
theorem modulo_zero_divisor (w : Nat) (g_cells : Int → scm) (a b : Int)
    (ha : (g_cells a).type = TNUMBER) (hb : (g_cells b).type = TNUMBER)
    (haw : wrap w (VALUE g_cells a) = VALUE g_cells a) (hneg : VALUE g_cells a < 0)
    (hzero : VALUE g_cells b = 0) (fuel : Nat) : modulo w g_cells fuel a b = none := by
  unfold modulo
  rw [assert_number_ok ha, assert_number_ok hb]
  simp only
  rw [hzero, modulo_loop_zero w _ haw hneg fuel]

/-- C22, the failing input: `(modulo -1 0)`, on the number cells 99 (value
-1) and 100 (value 0) of `signed_heap`.  The loop `while (x < 0) x += 0` leaves
`x` at -1, so that `modulo` has not returned after any number `fuel` of
passes. -/
theorem modulo_never_returns :
    (signed_heap 99).type = TNUMBER ∧ VALUE signed_heap 99 = -1 ∧
    (signed_heap 100).type = TNUMBER ∧ VALUE signed_heap 100 = 0 ∧
    ∀ fuel : Nat, modulo 64 signed_heap fuel 99 100 = none :=
  ⟨rfl, rfl, rfl, rfl,
    modulo_zero_divisor 64 signed_heap 99 100 rfl rfl (by decide) (by decide) rfl⟩

/-! ### Growth of the arena -/

/-- C23, counterexample: `example_capped` has `0 < ARENA_SIZE <
MAX_ARENA_SIZE` (90 < 100) and `JAM_SIZE = 20`; `gc_up_arena`, which `gc_`
calls in this state, takes its second branch (45 is not below 25) and sets
`ARENA_SIZE` to 100 - 20 = 80, below the 90 of before. -/
theorem gc_up_arena_shrinks :
    0 < example_capped.ARENA_SIZE ∧ example_capped.ARENA_SIZE < example_capped.MAX_ARENA_SIZE ∧
    0 ≤ example_capped.JAM_SIZE ∧
    example_capped.ARENA_SIZE = 90 ∧ (gc_up_arena example_capped).ARENA_SIZE = 80 ∧
    (gc_grow example_capped).ARENA_SIZE = 80 :=
  ⟨by decide, by decide, by decide, rfl, by decide, by decide⟩

/-- C23, amended: for `0 < ARENA_SIZE`, `gc_up_arena` enlarges the arena when
it doubles (`floor (ARENA_SIZE / 2) < floor (MAX_ARENA_SIZE / 4)`); when it
caps, the new `ARENA_SIZE` is `MAX_ARENA_SIZE - JAM_SIZE`, so that `ARENA_SIZE +
JAM_SIZE` is `MAX_ARENA_SIZE` afterwards, and this is at least the old
`ARENA_SIZE` exactly when `ARENA_SIZE + JAM_SIZE <= MAX_ARENA_SIZE` held
before.  So growing never shrinks the arena of a state with `ARENA_SIZE +
JAM_SIZE <= MAX_ARENA_SIZE`. -/
theorem gc_up_arena_grows (s : Machine) (hpos : 0 < s.ARENA_SIZE) :
    (s.ARENA_SIZE / 2 < s.MAX_ARENA_SIZE / 4 →
      (gc_up_arena s).ARENA_SIZE = 2 * s.ARENA_SIZE ∧
      s.ARENA_SIZE < (gc_up_arena s).ARENA_SIZE) ∧
    (¬ s.ARENA_SIZE / 2 < s.MAX_ARENA_SIZE / 4 →
      (gc_up_arena s).ARENA_SIZE = s.MAX_ARENA_SIZE - s.JAM_SIZE ∧
      (gc_up_arena s).ARENA_SIZE + (gc_up_arena s).JAM_SIZE = s.MAX_ARENA_SIZE ∧
      (s.ARENA_SIZE ≤ (gc_up_arena s).ARENA_SIZE ↔
        s.ARENA_SIZE + s.JAM_SIZE ≤ s.MAX_ARENA_SIZE)) ∧
    (s.ARENA_SIZE + s.JAM_SIZE ≤ s.MAX_ARENA_SIZE →
      s.ARENA_SIZE ≤ (gc_up_arena s).ARENA_SIZE) := by
  have hA : (gc_up_arena s).ARENA_SIZE =
      (if s.ARENA_SIZE / 2 < s.MAX_ARENA_SIZE / 4 then s.ARENA_SIZE * 2
        else s.MAX_ARENA_SIZE - s.JAM_SIZE) := by
    unfold gc_up_arena
    rw [shift_one, shift_two]
    split_ifs <;> rfl
  have hJ : ¬ s.ARENA_SIZE / 2 < s.MAX_ARENA_SIZE / 4 →
      (gc_up_arena s).JAM_SIZE = s.JAM_SIZE := by
    intro h
    unfold gc_up_arena
    rw [shift_one, shift_two, if_neg h]
  refine ⟨?_, ?_, ?_⟩
  · intro h
    rw [hA, if_pos h]
    constructor <;> omega
  · intro h
    rw [hJ h, hA, if_neg h]
    refine ⟨rfl, by omega, ?_⟩
    constructor <;> intro <;> omega
  · intro h
    rw [hA]
    split_ifs <;> omega

/-- Witness for C23, amended: `example_growing` (100 of 1000 cells), whose
arena doubles. -/
theorem gc_up_arena_grows_witness :
    0 < example_growing.ARENA_SIZE ∧
    example_growing.ARENA_SIZE < (gc_up_arena example_growing).ARENA_SIZE :=
  ⟨by decide, ((gc_up_arena_grows example_growing (by decide)).1 (by decide)).2⟩

/-! ### `fdungetc` and `execl_` -/

/-- C24: the unget slot of a descriptor holds one value and loses none
silently.  With the slot taken after `__ungetc_init` (which empties every slot
of a buffer that was never used and leaves a used buffer as it is):
`fdungetc (c, fd)` with `c != -1` on a slot that is not empty (`!= -1`) ends
the process with `exit (1)`, before any assignment to the slot;
`fdungetc (-1, fd)` returns -1 and leaves every slot as it is; in every other
case it returns `c` and the slot of `fd`, and no other, becomes `c`.  Whenever
`fdungetc` returns, a slot that was not empty still holds its value. -/
theorem fdungetc_one_byte (st : Posix) (c fd : Int) (hfd0 : 0 ≤ fd) (hfd1 : fd < RLIMIT_NOFILE) :
    (c ≠ -1 → (__ungetc_init st).__ungetc_buf fd ≠ -1 → fdungetc st c fd = .exited 1) ∧
    fdungetc st (-1) fd = .returned (-1) (__ungetc_init st) ∧
    (c ≠ -1 → (__ungetc_init st).__ungetc_buf fd = -1 →
      ∃ u, fdungetc st c fd = .returned c u ∧ u.__ungetc_buf fd = c ∧
        (∀ j, j ≠ fd → u.__ungetc_buf j = (__ungetc_init st).__ungetc_buf j) ∧
        u.input = st.input ∧ u.__stdin = st.__stdin) ∧
    (∀ r u, fdungetc st c fd = .returned r u → r = c ∧
      ((__ungetc_init st).__ungetc_buf fd ≠ -1 →
        u.__ungetc_buf fd = (__ungetc_init st).__ungetc_buf fd)) ∧
    (st.__ungetc_buf RLIMIT_NOFILE ≠ 0 → __ungetc_init st = st) ∧
    (st.__ungetc_buf RLIMIT_NOFILE = 0 → (__ungetc_init st).__ungetc_buf fd = -1) := by
  refine ⟨?_, ?_, ?_, ?_, ungetc_init_of_used st, ?_⟩
  · intro hc hs
    unfold fdungetc
    rw [if_neg hc, if_pos hs]
  · unfold fdungetc
    rw [if_pos rfl]
  · intro hc hs
    refine ⟨{ __ungetc_init st with
        __ungetc_buf := fun j => if j = fd then c else (__ungetc_init st).__ungetc_buf j },
      by unfold fdungetc; rw [if_neg hc, if_neg (not_not.mpr hs)], ?_, ?_,
      ungetc_init_input st, ungetc_init_stdin st⟩
    · show (if fd = fd then c else _) = c
      rw [if_pos rfl]
    · intro j hj
      show (if j = fd then c else _) = _
      rw [if_neg hj]
  · intro r u h
    unfold fdungetc at h
    split_ifs at h with h1 h2
    · cases h
      exact ⟨rfl, fun _ => rfl⟩
    · cases h
      exact ⟨rfl, fun hs => absurd (not_not.mp h2) hs⟩
  · intro h0
    unfold __ungetc_init
    rw [if_pos h0]
    show (if 0 ≤ fd ∧ fd < RLIMIT_NOFILE + 1 then (-1 : Int) else _) = -1
    rw [if_pos ⟨hfd0, by omega⟩]

/-- Witness for C24: on descriptor 0 of `example_posix`, -1 is not stored,
65 is stored in the empty slot, and a second value, 66, ends the process. -/
theorem fdungetc_one_byte_witness :
    (0 : Int) ≤ 0 ∧ (0 : Int) < RLIMIT_NOFILE ∧
    fdungetc example_posix (-1) 0 = .returned (-1) (__ungetc_init example_posix) ∧
    (∃ u, fdungetc example_posix 65 0 = .returned 65 u ∧ u.__ungetc_buf 0 = 65 ∧
      fdungetc u 66 0 = .exited 1) :=
  ⟨by decide, by decide,
    (fdungetc_one_byte example_posix 65 0 (by decide) (by decide)).2.1,
    { example_posix with __ungetc_buf := fun j => if j = 0 then 65 else -1 }, rfl, rfl,
      (fdungetc_one_byte { example_posix with __ungetc_buf := fun j => if j = 0 then 65 else -1 }
        66 0 (by decide) (by decide)).1 (by decide) (by decide)⟩

/-- The pairs of `argument_heap`. -/
theorem argument_heap_pair (i : Int) (h0 : 2 ≤ i) (h1 : i < 2000) :
    argument_heap i = { type := TPAIR, car := 2000, cdr := i - 1 } := by
  unfold argument_heap
  rw [if_neg (by omega), if_neg (by omega), if_pos ⟨h0, h1⟩]

/-- The list at cell `n + 1` of `argument_heap` has `n` elements. -/
theorem argument_heap_length : ∀ n : Nat, n + 1 < 2000 →
    ListLength argument_heap ((n : Int) + 1) n := by
  intro n
  induction n with
  | zero => intro _; exact ListLength.nil
  | succ n ih =>
    intro h
    have hp := argument_heap_pair (((n + 1 : Nat) : Int) + 1) (by omega) (by omega)
    refine ListLength.cons _ n (by unfold cell_nil; omega) (by rw [hp]) ?_
    rw [hp]
    have e : (((n + 1 : Nat) : Int) + 1 - 1) = (n : Int) + 1 := by push_cast; ring
    show ListLength argument_heap (((n + 1 : Nat) : Int) + 1 - 1) n
    rw [e]
    exact ih (by omega)

/-- The assignments of the loop of `execl_` on the list of `n` elements of
`argument_heap`: one for each element, then the null pointer at the index
`i + n`. -/
theorem execl_loop_writes : ∀ (n fuel : Nat) (i : Int), n ≤ fuel → n + 1 < 2000 →
    execl_loop argument_heap fuel i ((n : Int) + 1) =
      some (.ok ((List.range n).map (fun k : Nat => (i + (k : Int), some (2001 : Int)))
        ++ [(i + (n : Int), none)])) := by
  intro n
  induction n with
  | zero =>
    intro fuel i _ _
    cases fuel <;> simp [execl_loop, cell_nil]
  | succ n ih =>
    intro fuel i hf h
    obtain ⟨fuel, rfl⟩ : ∃ m, fuel = m + 1 := ⟨fuel - 1, by omega⟩
    have hp := argument_heap_pair (((n + 1 : Nat) : Int) + 1) (by omega) (by omega)
    have e : (((n + 1 : Nat) : Int) + 1 - 1) = (n : Int) + 1 := by push_cast; ring
    have hs : argument_heap 2000 = { type := TSTRING, car := 1, cdr := 2001 } := rfl
    unfold execl_loop
    rw [if_pos (by unfold cell_nil; omega), hp]
    simp only [STRING]
    rw [hs, if_pos rfl, e, ih fuel (i + 1) (by omega) (by omega)]
    simp only [List.range_succ_eq_map, List.map_cons, List.map_map, List.cons_append]
    congr 3
    · simp
    · congr 1
      · apply List.map_congr_left
        intro k _
        simp only [Function.comp]
        congr 1
        push_cast; ring
      · congr 2
        push_cast; ring

/-- Every element of a list of `argument_heap` is the string at cell 2000. -/
theorem argument_heap_element (l p : Int) (h : ListElement argument_heap l p) : p = 2000 := by
  induction h with
  | head l ht =>
    unfold argument_heap at ht ⊢
    split_ifs at ht ⊢
    rfl
  | tail l p _ _ ih => exact ih

/-- C25, the failing input: the list at cell 1001 of `argument_heap` has 1000
elements, all of them strings.  When it passes the check `length__ (args) >
1000`, as it does with its length 1000, `execl_` assigns the last argument to
`c_argv[1000]` and the null pointer to `c_argv[1001]`, both outside the 1000
entries of `c_argv`, before it calls `execv`. -/
theorem execl_overruns_argv (length__ : (Int → scm) → Int → Int)
    (hlen : length__ argument_heap 1001 ≤ 1000) :
    ListLength argument_heap 1001 1000 ∧
    (∀ p, ListElement argument_heap 1001 p → (argument_heap p).type = TSTRING) ∧
    ∃ writes, (∀ fuel, 1000 ≤ fuel →
        execl_ length__ argument_heap fuel 2000 1001 = some (.execv writes)) ∧
      (1000, some 2001) ∈ writes ∧ (1001, none) ∈ writes := by
  refine ⟨argument_heap_length 1000 (by norm_num), ?_, ?_⟩
  · intro p hp
    rw [argument_heap_element _ _ hp]
    rfl
  · refine ⟨(0, some 2001) :: ((List.range 1000).map
        (fun k : Nat => ((0 : Int) + 1 + (k : Int), some (2001 : Int))) ++
        [((0 : Int) + 1 + ((1000 : Nat) : Int), none)]), ?_, ?_, ?_⟩
    · intro fuel hf
      unfold execl_
      rw [if_neg (by omega)]
      have h := execl_loop_writes 1000 fuel (0 + 1) hf (by norm_num)
      have e : (((1000 : Nat) : Int) + 1) = 1001 := by norm_num
      rw [e] at h
      rw [h]
      rfl
    · refine List.mem_cons_of_mem _ (List.mem_append_left _ ?_)
      exact List.mem_map.mpr ⟨999, List.mem_range.mpr (by norm_num), by norm_num⟩
    · refine List.mem_cons_of_mem _ (List.mem_append_right _ ?_)
      norm_num

/-- Witness for C25: `length__` gives the number of elements, 1000. -/
theorem execl_overruns_argv_witness :
    argument_length argument_heap 1001 ≤ 1000 ∧ argument_length argument_heap 1001 = 1000 ∧
    ∃ writes, execl_ argument_length argument_heap 1000 2000 1001 = some (.execv writes) ∧
      (1000, some 2001) ∈ writes ∧ (1001, none) ∈ writes := by
  refine ⟨by decide, by decide, ?_⟩
  obtain ⟨writes, h1, h2, h3⟩ := (execl_overruns_argv argument_length (by decide)).2.2
  exact ⟨writes, h1 1000 (le_refl _), h2, h3⟩

/-! ### `itoa` -/

/-- The characters a buffer holds at the `n` indices from `i` on. -/
theorem c_string_segment (buf : Int → Int) :
    ∀ (len n : Nat) (i : Int), len ≤ n → (∀ k : Nat, k < len → buf (i + k) ≠ 0) →
      buf (i + len) = 0 →
      c_string buf n i = (List.range len).map (fun k => buf (i + (k : Nat))) := by
  intro len
  induction len with
  | zero =>
    intro n i _ _ h0
    cases n with
    | zero => rfl
    | succ n =>
      simp only [c_string, List.range_zero, List.map_nil]
      rw [if_pos (by simpa using h0)]
  | succ len ih =>
    intro n i hn hne h0
    cases n with
    | zero => omega
    | succ n =>
      have hi : buf i ≠ 0 := by simpa using hne 0 (Nat.succ_pos _)
      simp only [c_string]
      rw [if_neg hi, ih n (i + 1) (by omega)
        (fun k hk => by
          have := hne (k + 1) (by omega)
          rw [show i + 1 + (k : Int) = i + ((k + 1 : Nat) : Int) by push_cast; ring]
          exact this)
        (by rw [show i + 1 + (len : Int) = i + ((len + 1 : Nat) : Int) by push_cast; ring]
            exact h0)]
      rw [List.range_succ_eq_map, List.map_cons, List.map_map]
      congr 1
      · simp
      · apply List.map_congr_left
        intro k _
        simp only [Function.comp]
        congr 1
        push_cast; ring

/-- The loop of `ntoab` in base 10 on a positive `n`: it ends within as many
passes as `n` has digits, and leaves the digits, the most significant one
first, at the indices up to `i`. -/
theorem ntoab_loop_digits (w : Nat) (hw : 32 ≤ w) :
    ∀ (fuel n : Nat) (s : Ntoab) (i : Int), 0 < n → (Nat.digits 10 n).length ≤ fuel →
      ∃ s2, ntoab_loop w 10 fuel s i (n : Int) = some (s2, i - (Nat.digits 10 n).length) ∧
        (List.range (Nat.digits 10 n).length).map
            (fun k => s2.itoa_buf (i - (Nat.digits 10 n).length + 1 + (k : Nat))) =
          (Nat.digits 10 n).reverse.map (fun d : Nat => 48 + (d : Int)) ∧
        (∀ j, (j ≤ i - (Nat.digits 10 n).length ∨ i < j) → s2.itoa_buf j = s.itoa_buf j) ∧
        (∀ j ∈ s2.written, j ∈ s.written ∨ (i - (Nat.digits 10 n).length < j ∧ j ≤ i)) := by
  intro fuel
  induction fuel with
  | zero =>
    intro n s i hn hlen
    rw [Nat.digits_def' (by norm_num) hn] at hlen
    simp at hlen
  | succ fuel ih =>
    intro n s i hn hlen
    have hdig := Nat.digits_def' (by norm_num : 1 < 10) hn
    have hd : n % 10 < 10 := Nat.mod_lt _ (by norm_num)
    have hmod : (n : Int) % 10 = ((n % 10 : Nat) : Int) := by push_cast; rfl
    have hdiv : (n : Int) / 10 = ((n / 10 : Nat) : Int) := by push_cast; rfl
    have hpow : (2 : Int) ^ 32 ≤ 2 ^ w := pow_le_pow_right₀ (by norm_num) hw
    have hwrap : wrap w ((n : Int) % 10) = ((n % 10 : Nat) : Int) := by
      rw [hmod]
      exact wrap_of_small w _ (by omega) (by omega)
    have hchar : (if wrap w ((n : Int) % 10) > 9 then 97 + wrap w ((n : Int) % 10) - 10
        else 48 + wrap w ((n : Int) % 10)) = 48 + ((n % 10 : Nat) : Int) := by
      rw [hwrap, if_neg (by omega)]
    have hput : ∀ j, (s.put i (48 + ((n % 10 : Nat) : Int))).itoa_buf j =
        if j = i then 48 + ((n % 10 : Nat) : Int) else s.itoa_buf j := by
      intro j
      show (if j = i then (48 + ((n % 10 : Nat) : Int)) % 256 else _) = _
      rw [Int.emod_eq_of_lt (by omega) (by omega)]
    unfold ntoab_loop
    rw [hchar, hdiv]
    by_cases h0 : n / 10 = 0
    · rw [if_neg (by rw [h0]; simp)]
      have hds : Nat.digits 10 n = [n % 10] := by rw [hdig, h0]; simp
      rw [hds]
      refine ⟨s.put i (48 + ((n % 10 : Nat) : Int)), by simp, ?_, ?_, ?_⟩
      · have hr : List.range 1 = [0] := rfl
        simp only [List.length_singleton, hr, List.map_cons, List.map_nil,
          List.reverse_singleton]
        rw [hput, if_pos (by push_cast; ring)]
      · intro j hj
        rw [hput, if_neg]
        simp at hj; omega
      · intro j hj
        rcases List.mem_cons.mp hj with h | h
        · right; simp; omega
        · left; exact h
    · rw [if_pos (by exact_mod_cast h0)]
      have hlen2 : (Nat.digits 10 (n / 10)).length ≤ fuel := by
        rw [hdig] at hlen; simpa using hlen
      obtain ⟨s2, r1, r2, r3, r4⟩ := ih (n / 10) (s.put i (48 + ((n % 10 : Nat) : Int))) (i - 1)
        (Nat.pos_of_ne_zero h0) hlen2
      have hL : ((Nat.digits 10 n).length : Int) = (Nat.digits 10 (n / 10)).length + 1 := by
        rw [hdig]; simp
      refine ⟨s2, ?_, ?_, ?_, ?_⟩
      · rw [r1, hL]
        congr 2
        ring
      · rw [hdig, List.length_cons, List.range_succ, List.map_append, List.reverse_cons,
          List.map_append, ← r2]
        congr 1
        · apply List.map_congr_left
          intro k _
          congr 1
          push_cast; ring
        · simp only [List.map_cons, List.map_nil]
          congr 1
          rw [show i - ((Nat.digits 10 (n / 10)).length + 1 : Nat) + 1 +
            ((Nat.digits 10 (n / 10)).length : Int) = i by push_cast; ring]
          rw [r3 i (Or.inr (by omega)), hput, if_pos rfl]
      · intro j hj
        rw [r3 j (by omega), hput, if_neg (by omega)]
      · intro j hj
        rcases r4 j hj with h | h
        · rcases List.mem_cons.mp h with h | h
          · right; omega
          · left; exact h
        · right; omega

/-- One step of `c_string`. -/
theorem c_string_succ (buf : Int → Int) (n : Nat) (i : Int) :
    c_string buf (n + 1) i = if buf i = 0 then [] else buf i :: c_string buf n (i + 1) := rfl

/-- The C string at `i` depends on the buffer from `i` on only. -/
theorem c_string_congr (buf1 buf2 : Int → Int) :
    ∀ (n : Nat) (i : Int), (∀ j, i ≤ j → buf1 j = buf2 j) →
      c_string buf1 n i = c_string buf2 n i := by
  intro n
  induction n with
  | zero => intro i _; rfl
  | succ n ih =>
    intro i h
    simp only [c_string]
    rw [h i (le_refl _), ih (i + 1) (fun j hj => h j (by omega))]

/-- The digits of a number, the most significant one first, stand for the
number. -/
theorem decimal_value_digits (ds : List Nat) :
    (ds.reverse.map (fun d : Nat => 48 + (d : Int))).foldl (fun n c => 10 * n + (c - 48)) 0 =
      ((Nat.ofDigits 10 ds : Nat) : Int) := by
  induction ds with
  | nil => simp
  | cons d ds ih =>
    rw [List.reverse_cons, List.map_append, List.foldl_append, ih, Nat.ofDigits_cons]
    simp only [List.map_cons, List.map_nil, List.foldl_cons, List.foldl_nil]
    push_cast
    ring

/-- Parsing the canonical decimal numeral of `x` gives `x`. -/
theorem decimal_value_numeral (x : Int) : decimal_value (decimal_numeral x) = x := by
  unfold decimal_numeral
  by_cases h0 : x = 0
  · rw [if_pos h0, h0]
    simp [decimal_value]
  · rw [if_neg h0]
    have hval := decimal_value_digits (Nat.digits 10 x.natAbs)
    rw [Nat.ofDigits_digits] at hval
    by_cases hneg : x < 0
    · rw [if_pos hneg]
      simp only [List.singleton_append, decimal_value]
      rw [hval]
      omega
    · rw [if_neg hneg, List.nil_append]
      have hne : Nat.digits 10 x.natAbs ≠ [] :=
        Nat.digits_ne_nil_iff_ne_zero.mpr (by omega)
      have hrev : (Nat.digits 10 x.natAbs).reverse ≠ [] := by simpa using hne
      obtain ⟨d, ds, hds⟩ := List.exists_cons_of_ne_nil hrev
      have hdec : decimal_value (List.map (fun d : Nat => 48 + (d : Int))
            (Nat.digits 10 x.natAbs).reverse) =
          (List.map (fun d : Nat => 48 + (d : Int))
            (Nat.digits 10 x.natAbs).reverse).foldl (fun n c => 10 * n + (c - 48)) 0 := by
        rw [hds, List.map_cons]
        unfold decimal_value
        split
        · rename_i heq
          have h45 := (List.cons.inj heq).1
          omega
        · rfl
      rw [hdec, hval]
      omega

/-- C26: for every 32-bit `x`, with a `long` of at least 32 bits and the 10
passes that the digits of `|x| <= 2 ^ 31` need at most, `itoa (x)` returns a
pointer into `itoa_buf` at which the C string is the canonical decimal
numeral of `x` ("0" for zero, otherwise the digits of `|x|` without a leading
zero, after a '-' exactly when `x < 0`), whose value as a decimal integer is
`x`; and every index of `itoa_buf` that was assigned to, as the index
returned, lies in 0 .. 19. -/
theorem itoa_decimal (w : Nat) (hw : 32 ≤ w) (fuel : Nat) (hfuel : 10 ≤ fuel)
    (itoa_buf : Int → Int) (x : Int) (hlo : -(2 ^ 31) ≤ x) (hhi : x < 2 ^ 31) :
    ∃ s i, itoa w fuel itoa_buf x = some (.ok (s, i)) ∧
      c_string s.itoa_buf 20 i = decimal_numeral x ∧
      decimal_value (decimal_numeral x) = x ∧
      (∀ j ∈ s.written, 0 ≤ j ∧ j < 20) ∧ 0 ≤ i ∧ i < 20 := by
  have hpow : (2 : Int) ^ 32 ≤ 2 ^ w := pow_le_pow_right₀ (by norm_num) hw
  have hbase : (10 : Int) % 2 ^ w = 10 := Int.emod_eq_of_lt (by norm_num) (by omega)
  have hu : (if (true = true) ∧ x < 0 then wrap w (-x) % 2 ^ w else x % 2 ^ w) =
      (x.natAbs : Int) := by
    have hcast : (((2 ^ w : Nat) : Int)) = (2 : Int) ^ w := by push_cast; rfl
    by_cases hneg : x < 0
    · rw [if_pos ⟨rfl, hneg⟩]
      unfold wrap
      rw [← hcast, Int.bmod_emod, hcast, Int.emod_eq_of_lt (by omega) (by omega)]
      omega
    · rw [if_neg (fun h => hneg h.2), Int.emod_eq_of_lt (by omega) (by omega)]
      omega
  have h11 : ∀ j, (Ntoab.put { itoa_buf := itoa_buf, written := [] } 11 0).itoa_buf j =
      if j = 11 then 0 else itoa_buf j := fun j => rfl
  unfold itoa ntoab
  rw [hbase, if_neg (by norm_num), hu]
  by_cases h0 : x = 0
  · subst h0
    obtain ⟨f, rfl⟩ : ∃ f, fuel = f + 1 := ⟨fuel - 1, by omega⟩
    have hw0 : wrap w 0 = 0 := wrap_of_small w 0 (le_refl _) (by positivity)
    refine ⟨(Ntoab.put { itoa_buf := itoa_buf, written := [] } 11 0).put (11 - 1) 48, 10,
      by simp [ntoab_loop, hw0], ?_, decimal_value_numeral 0, ?_, by norm_num, by norm_num⟩
    · simp [c_string, Ntoab.put, decimal_numeral]
    · intro j hj
      simp [Ntoab.put] at hj
      omega
  · have hn : 0 < x.natAbs := by omega
    have hlen : (Nat.digits 10 x.natAbs).length ≤ 10 := by
      have h1 := Nat.base_pow_length_digits_le 10 x.natAbs (by norm_num) (by omega)
      have h2 : 10 * x.natAbs < 10 ^ 11 := by omega
      have h3 : 10 ^ (Nat.digits 10 x.natAbs).length < 10 ^ 11 := lt_of_le_of_lt h1 h2
      have := (Nat.pow_lt_pow_iff_right (by norm_num : 1 < 10)).mp h3
      omega
    have hpos : 0 < (Nat.digits 10 x.natAbs).length := by
      rw [Nat.digits_def' (by norm_num) hn]; simp
    obtain ⟨s2, r1, r2, r3, r4⟩ := ntoab_loop_digits w hw fuel x.natAbs
      (Ntoab.put { itoa_buf := itoa_buf, written := [] } 11 0) (11 - 1) hn (by omega)
    rw [r1]
    dsimp only
    have hterm : s2.itoa_buf 11 = 0 := by
      rw [r3 11 (Or.inr (by norm_num)), h11, if_pos rfl]
    have hdigit : ∀ c ∈ (Nat.digits 10 x.natAbs).reverse.map (fun d : Nat => 48 + (d : Int)),
        48 ≤ c ∧ c ≤ 57 := by
      intro c hc
      obtain ⟨d, hd, rfl⟩ := List.mem_map.mp hc
      have := Nat.digits_lt_base (by norm_num : 1 < 10) (List.mem_reverse.mp hd)
      omega
    have hseg : ∀ k : Nat, k < (Nat.digits 10 x.natAbs).length →
        48 ≤ s2.itoa_buf (11 - 1 - (Nat.digits 10 x.natAbs).length + 1 + (k : Nat)) ∧
        s2.itoa_buf (11 - 1 - (Nat.digits 10 x.natAbs).length + 1 + (k : Nat)) ≤ 57 := by
      intro k hk
      apply hdigit
      rw [← r2]
      exact List.mem_map.mpr ⟨k, List.mem_range.mpr hk, rfl⟩
    have hlead : s2.itoa_buf (11 - 1 - (Nat.digits 10 x.natAbs).length + 1) ≠ 48 := by
      have hne : Nat.digits 10 x.natAbs ≠ [] := Nat.digits_ne_nil_iff_ne_zero.mpr (by omega)
      have hlast := Nat.getLast_digit_ne_zero 10 (show x.natAbs ≠ 0 by omega)
      have hhead : ((List.range (Nat.digits 10 x.natAbs).length).map
          (fun k => s2.itoa_buf (11 - 1 - (Nat.digits 10 x.natAbs).length + 1 + (k : Nat)))).head?
          = some (48 + ((Nat.digits 10 x.natAbs).getLast hne : Int)) := by
        rw [r2, List.head?_map, List.head?_reverse, List.getLast?_eq_getLast _ hne]
        rfl
      obtain ⟨m, hm⟩ : ∃ m, (Nat.digits 10 x.natAbs).length = m + 1 := ⟨_, (Nat.succ_pred_eq_of_pos hpos).symm⟩
      rw [hm, List.range_succ_eq_map] at hhead
      simp only [List.map_cons, List.head?_cons, Option.some.injEq] at hhead
      rw [hm]
      simp only [Nat.cast_zero, add_zero] at hhead
      rw [hhead]
      omega
    have hstr : ∀ n : Nat, 10 ≤ n →
        c_string s2.itoa_buf n (11 - 1 - (Nat.digits 10 x.natAbs).length + 1) =
          (Nat.digits 10 x.natAbs).reverse.map (fun d : Nat => 48 + (d : Int)) := by
      intro n hn10
      rw [← r2]
      apply c_string_segment s2.itoa_buf _ n _ (by omega)
      · intro k hk
        have := (hseg k hk).1
        omega
      · rw [show (11 : Int) - 1 - (Nat.digits 10 x.natAbs).length + 1 +
          (Nat.digits 10 x.natAbs).length = 11 by ring]
        exact hterm
    have hwr : ∀ j ∈ s2.written, 0 < j ∧ j < 20 := by
      intro j hj
      rcases r4 j hj with h | h
      · simp [Ntoab.put] at h
        omega
      · omega
    by_cases hneg : x < 0
    · have hcond : (true = true ∧ x < 0) ∧
          s2.itoa_buf (11 - 1 - (Nat.digits 10 x.natAbs).length + 1) ≠ 48 := ⟨⟨rfl, hneg⟩, hlead⟩
      rw [if_pos hcond]
      refine ⟨s2.put (11 - 1 - (Nat.digits 10 x.natAbs).length) 45,
        11 - 1 - (Nat.digits 10 x.natAbs).length - 1 + 1, rfl, ?_, decimal_value_numeral x, ?_,
        by omega, by omega⟩
      · unfold decimal_numeral
        rw [if_neg h0, if_pos hneg, List.singleton_append, ← hstr 19 (by norm_num)]
        have hput : ∀ j, (s2.put (11 - 1 - (Nat.digits 10 x.natAbs).length) 45).itoa_buf j =
            if j = 11 - 1 - (Nat.digits 10 x.natAbs).length then 45 else s2.itoa_buf j :=
          fun j => rfl
        rw [show (11 : Int) - 1 - (Nat.digits 10 x.natAbs).length - 1 + 1 =
          11 - 1 - (Nat.digits 10 x.natAbs).length by ring]
        rw [c_string_succ, hput, if_pos rfl, if_neg (by norm_num)]
        congr 1
        apply c_string_congr
        intro j hj
        rw [hput, if_neg (by omega)]
      · intro j hj
        rcases List.mem_cons.mp hj with h | h
        · omega
        · have := hwr j h; omega
    · have hcond : ¬ ((true = true ∧ x < 0) ∧
          s2.itoa_buf (11 - 1 - (Nat.digits 10 x.natAbs).length + 1) ≠ 48) := fun h => hneg h.1.2
      rw [if_neg hcond]
      refine ⟨s2, 11 - 1 - (Nat.digits 10 x.natAbs).length + 1, rfl, ?_,
        decimal_value_numeral x, ?_, by omega, by omega⟩
      · unfold decimal_numeral
        rw [if_neg h0, if_neg hneg, List.nil_append, hstr 20 (by norm_num)]
      · intro j hj
        have := hwr j hj; omega

/-- Witness for C26: `itoa (-42)` with a `long` of 64 bits. -/
theorem itoa_decimal_witness :
    32 ≤ 64 ∧ 10 ≤ 20 ∧ -(2 ^ 31) ≤ (-42 : Int) ∧ (-42 : Int) < 2 ^ 31 ∧
    ∃ s i, itoa 64 20 (fun _ => 0) (-42) = some (.ok (s, i)) ∧
      c_string s.itoa_buf 20 i = decimal_numeral (-42) ∧
      decimal_value (decimal_numeral (-42)) = -42 ∧
      (∀ j ∈ s.written, 0 ≤ j ∧ j < 20) ∧ 0 ≤ i ∧ i < 20 :=
  ⟨by decide, by decide, by decide, by decide,
    itoa_decimal 64 (by decide) 20 (by decide) (fun _ => 0) (-42) (by decide) (by decide)⟩

/-- The string of `itoa (-2147483648)` starts at index 0 of `itoa_buf`. -/
theorem example_itoa :
    (match itoa 64 20 (fun _ => 0) (-2147483648) with
      | some (.ok (s, i)) => (c_string s.itoa_buf 20 i, i)
      | _ => ([], -1)) = ([45, 50, 49, 52, 55, 52, 56, 51, 54, 52, 56], 0) := by
  decide

end Mes
